import Mathlib

/-!
Verification development for the `mdgachasim` gacha-cost simulator.

The Python sources under `src/mdgachasim/` are shallowly embedded below:
* `card.py` gives `Rarity` and `Card`;
* `bundle.py` gives `Bundle`;
* `simulator.py` gives `findGoalSources` (`_find_goal_sources`),
  `removeCardFromGoals` (`_remove_card_from_goals`) and `simulation`
  together with its helper phases (`simStep`, `pullPhase`, `craftUnlock`,
  `expectedReturn`, ...);
* `util.py` gives `namesToDecklist` (`names_to_decklist`).

The module `pack.py` (class `Pack` and its stochastic `pull_ten`) is imported
by the sources but is not part of the repository snapshot; following the
specification it is treated as a black-box draw engine: `Pack` carries the
fields the simulator reads (`name`, `cardlist`, `is_normal_pack`, `totals`)
and each `pull_ten` call is answered by an `oracle` parameter producing a
`Pull` record (`cards`, `finishes`, `pity`, `materials`), exactly the fields
the simulator consumes.  Likewise the global database `db` (loaded from a
JSON file that is not in the snapshot) is passed in as an environment with
the fields the simulator reads: `sources` and `masterPack`.

Python data structures are modelled as follows: lists are Lean lists;
`dict`s are insertion-ordered association lists (`alookup`, `alistSet`,
`alistAppendEntry`); `set`s are duplicate-free lists with membership-guarded
insertion (`setAdd`); the materials ledger (a dict totalised over the four
rarities by `setdefault`) is the four-field record `Mats`; Python floats in
the expected-return heuristic are modelled as exact rationals.
-/

namespace MDGachaSim

/-- Rarity enumeration from `card.py`. -/
inductive Rarity
  | Common
  | Rare
  | Super
  | Ultra
deriving DecidableEq, Repr

/-- Frozen dataclass `Card` from `card.py`; equality compares all fields. -/
structure Card where
  name : String
  rarity : Rarity
  staple : Bool
  gift : Nat
deriving DecidableEq, Repr

/-- Modelled from the spec: class `Pack` of the missing `pack.py`, restricted
to the fields the simulator and catalog read: `name`, `cardlist`,
`is_normal_pack`, and the per-rarity card totals (a partial mapping whose
absent entries default to 4 at lookup time). -/
structure Pack where
  name : String
  cardlist : List Card
  is_normal_pack : Bool
  totals : List (Rarity × Int)
deriving DecidableEq, Repr

/-- Class `Bundle` from `bundle.py`. -/
structure Bundle where
  name : String
  cost : Int
  featured_pack : Pack
  featured_cards : List Card
deriving DecidableEq, Repr

/-- Association-list lookup (first match), modelling Python `dict` access. -/
def alookup {κ ν : Type} [DecidableEq κ] : List (κ × ν) → κ → Option ν
  | [], _ => none
  | e :: es, k => if e.1 = k then some e.2 else alookup es k

/-- Association-list write: overwrite in place, else append (Python `d[k]=v`). -/
def alistSet {κ ν : Type} [DecidableEq κ] : List (κ × ν) → κ → ν → List (κ × ν)
  | [], k, v => [(k, v)]
  | e :: es, k, v => if e.1 = k then (k, v) :: es else e :: alistSet es k v

/-- `d.setdefault(k, []).append(v)` on a dict of lists. -/
def alistAppendEntry {κ ν : Type} [DecidableEq κ] :
    List (κ × List ν) → κ → ν → List (κ × List ν)
  | [], k, v => [(k, [v])]
  | e :: es, k, v =>
    if e.1 = k then (e.1, e.2 ++ [v]) :: es else e :: alistAppendEntry es k v

/-- Python `set.add`: insert only when absent. -/
def setAdd {α : Type} [DecidableEq α] (l : List α) (a : α) : List α :=
  if a ∈ l then l else l ++ [a]

/-- Python `list.remove`: drop the first occurrence (no-op when absent). -/
def eraseFirst {α : Type} [DecidableEq α] : List α → α → List α
  | [], _ => []
  | x :: xs, a => if x = a then xs else x :: eraseFirst xs a

/-- Remove `n` first occurrences of `a` (the gift-removal inner loop). -/
def eraseN {α : Type} [DecidableEq α] (l : List α) (a : α) : Nat → List α
  | 0 => l
  | n + 1 => eraseN (eraseFirst l a) a n

/-- Python `list.count`. -/
def countOcc {α : Type} [DecidableEq α] (l : List α) (a : α) : Nat :=
  (l.filter fun x => decide (x = a)).length

/-- The materials ledger: a `Dict[Rarity, int]` that `simulation` totalises
over all four rarities with `setdefault(r, 0)`. -/
structure Mats where
  common : Int
  rare : Int
  super : Int
  ultra : Int
deriving DecidableEq, Repr

/-- `materials[r]` read. -/
def Mats.get (m : Mats) : Rarity → Int
  | Rarity.Common => m.common
  | Rarity.Rare => m.rare
  | Rarity.Super => m.super
  | Rarity.Ultra => m.ultra

/-- `materials[r] = v` write. -/
def Mats.set (m : Mats) : Rarity → Int → Mats
  | Rarity.Common, v => { m with common := v }
  | Rarity.Rare, v => { m with rare := v }
  | Rarity.Super, v => { m with super := v }
  | Rarity.Ultra, v => { m with ultra := v }

/-- `materials[r] += v`. -/
def Mats.add (m : Mats) (r : Rarity) (v : Int) : Mats :=
  m.set r (m.get r + v)

/-- The zero ledger produced by `setdefault(r, 0)` over all rarities. -/
def Mats.zero : Mats := ⟨0, 0, 0, 0⟩

/-- `for r, v in other.items(): materials[r] += v`. -/
def Mats.addAll (m p : Mats) : Mats :=
  ⟨m.common + p.common, m.rare + p.rare, m.super + p.super, m.ultra + p.ultra⟩

/-- `all(v >= 0 for v in materials.values())`. -/
def Mats.nonneg (m : Mats) : Bool :=
  decide (0 ≤ m.common) && decide (0 ≤ m.rare) &&
    decide (0 ≤ m.super) && decide (0 ≤ m.ultra)

/-- Pointwise order on ledgers (used only in statements). -/
def Mats.le (a b : Mats) : Prop :=
  a.common ≤ b.common ∧ a.rare ≤ b.rare ∧ a.super ≤ b.super ∧ a.ultra ≤ b.ultra

instance (a b : Mats) : Decidable (a.le b) := by
  unfold Mats.le
  exact inferInstance

/-- Build the run ledger from a caller-supplied partial dict:
`materials = (materials or {}).copy()` followed by `setdefault(r, 0)`. -/
def Mats.ofAList (l : List (Rarity × Int)) : Mats :=
  l.foldl (fun m e => m.set e.1 e.2) Mats.zero

/-- The four-entry dict a run ledger denotes (every key present). -/
def Mats.toAList (m : Mats) : List (Rarity × Int) :=
  [(Rarity.Common, m.common), (Rarity.Rare, m.rare),
   (Rarity.Super, m.super), (Rarity.Ultra, m.ultra)]

/-- Modelled from the spec: the result record of the missing `pack.py`'s
`Pack.pull_ten` — the drawn tracked cards, their dismantle (finish) values,
the updated pity counter, and the base materials from untracked draws;
exactly the fields `simulation` reads (`pull.cards`, `pull.finishes`,
`pull.pity`, `pull.materials`). -/
structure Pull where
  cards : List Card
  finishes : List Int
  pity : Nat
  materials : Mats
deriving DecidableEq, Repr

/-- Modelled from the spec: the read-only parts of the global catalog `db`
consumed by `simulation` (`db.sources`, `db.master_pack`), together with the
stochastic draw engine `pull_ten` of the missing `pack.py`, abstracted as an
oracle indexed by the loop iteration, the pack drawn from and the running
pity counter. -/
structure Env where
  sources : Card → List Pack
  masterPack : Pack
  oracle : Nat → Pack → Nat → Pull

/-- The full read-only context of one `simulation` invocation: the
environment plus the policy arguments the loop body reads
(`rarity_weight`, `log`, `no_crafting`). -/
structure Ctx extends Env where
  rarityWeight : Rarity → Option ℚ
  log : Bool
  noCrafting : Bool

/-- `_find_goal_sources` from `simulator.py`: for each goal, every source
pack offering it that is either a secret/selection pack or an already
unlocked normal pack, with the goals collected per pack. -/
def findGoalSources (sources : Card → List Pack) (goals : List Card)
    (packsUnlocked : List Pack) : List (Pack × List Card) :=
  goals.foldl
    (fun acc goal =>
      (sources goal).foldl
        (fun acc source =>
          if source.is_normal_pack = false ∨ source ∈ packsUnlocked then
            alistAppendEntry acc source goal
          else acc)
        acc)
    []

/-- `_remove_card_from_goals` from `simulator.py`: remove the card's first
occurrence from `goals` if present; on success also erase it from every
per-source list and, if some list just became empty, delete all empty
entries.  Returns (removed?, goals, per-source index); the `per_source =
None` calls of the source are made with `[]` (both are falsy in
`if per_source:`). -/
def removeCardFromGoals (card : Card) (goals : List Card)
    (perSource : List (Pack × List Card)) :
    Bool × List Card × List (Pack × List Card) :=
  if card ∈ goals then
    let goals' := eraseFirst goals card
    if perSource = [] then (true, goals', perSource)
    else
      let doCleanup :=
        perSource.any fun e => decide (card ∈ e.2) && (eraseFirst e.2 card).isEmpty
      let ps := perSource.map fun e => (e.1, eraseFirst e.2 card)
      let ps := if doCleanup then ps.filter (fun e => !e.2.isEmpty) else ps
      (true, goals', ps)
  else (false, goals, perSource)

/-- Gift removal prologue of `simulation`: for each distinct goal, remove
`min(goals.count(goal), gift count)` copies, where the gift count is the
card's own `gift` field unless an explicit `gifts` list is supplied.
(The Python source iterates `set(goals)`; since removals of distinct card
values commute, any enumeration order yields the same list, and we use
`List.dedup`.) -/
def removeGifts (goals : List Card) (gifts : Option (List Card)) : List Card :=
  goals.dedup.foldl
    (fun gs goal =>
      eraseN gs goal
        (min (countOcc gs goal)
          (match gifts with
           | none => goal.gift
           | some gl => countOcc gl goal)))
    goals

/-- Staple test of the `core_only` prologue: the card's own `staple` flag
unless an explicit staple override set is supplied. -/
def stapleFlag (staples : Option (List Card)) (g : Card) : Bool :=
  match staples with
  | none => g.staple
  | some s => decide (g ∈ s)

/-- The must-buy bundle discovery prologue: bundles featuring a remaining
goal, in order of discovery, deduplicated. -/
def computeMustBuy (goals : List Card) (bundles : List Bundle) : List Bundle :=
  goals.foldl
    (fun mb g =>
      bundles.foldl
        (fun mb b =>
          if g ∈ b.featured_cards ∧ b ∉ mb then mb ++ [b] else mb)
        mb)
    []

/-- The fixed base rarity probabilities of `expected_return`
(0.025, 0.075, 0.35/100, 0.55/1000), as exact rationals. -/
def rarityProb : Rarity → ℚ
  | Rarity.Ultra => 25 / 1000
  | Rarity.Super => 75 / 1000
  | Rarity.Rare => 35 / 10000
  | Rarity.Common => 55 / 100000

/-- `pack.totals.get(rarity, 4)`. -/
def totalsGet (p : Pack) (r : Rarity) : Int :=
  (alookup p.totals r).getD 4

/-- `expected_return` from `simulation`: the summed per-card pull value of a
source pack over its still-relevant goal cards. -/
def expectedReturn (ctx : Ctx) (cps : List (Pack × List Card))
    (source_pack : Pack) : ℚ :=
  ((alookup cps source_pack).getD []).foldl
    (fun acc card =>
      acc + rarityProb card.rarity * ((ctx.rarityWeight card.rarity).getD 1)
        / (totalsGet source_pack card.rarity : ℚ))
    0

/-- Python `max(keys, key=f)`: the first key attaining the maximum. -/
def pyMaxKey (f : Pack → ℚ) (e : Pack) (es : List Pack) : Pack :=
  es.foldl (fun b y => if f b < f y then y else b) e

/-- The per-run mutable state of one `simulation` invocation. -/
structure SimState where
  goals : List Card
  subGoals : List Card
  materials : Mats
  packsUnlocked : List Pack
  cardsPerSource : List (Pack × List Card)
  perPackPity : List (Pack × Nat)
  mustBuy : List Bundle
  cost : Int
deriving DecidableEq, Repr

/-- Post-draw pack unlocking for one drawn card (`simulator.py` lines
343-362): on a Super or Ultra draw, without a logger every pack in
`sources[card]` is added to the unlocked set; with a logger only packs that
are not yet unlocked and currently appear in `cards_per_source` are added. -/
def unlockForCard (ctx : Ctx) (card : Card) (packsUnlocked : List Pack)
    (cps : List (Pack × List Card)) : List Pack :=
  if card.rarity = Rarity.Super ∨ card.rarity = Rarity.Ultra then
    if ctx.log then
      (ctx.sources card).foldl
        (fun ul p =>
          if p ∉ ul ∧ (alookup cps p).isSome then ul ++ [p] else ul)
        packsUnlocked
    else
      (ctx.sources card).foldl setAdd packsUnlocked
  else packsUnlocked

/-- Post-draw bookkeeping for one drawn (card, finish) pair: unlock packs,
then remove the card from main goals, else from sub goals, else dismantle it
into the pull's materials at its finish value. -/
def processCard (ctx : Ctx) (acc : SimState × Mats) (pr : Card × Int) :
    SimState × Mats :=
  let s := acc.1
  let s := { s with
    packsUnlocked := unlockForCard ctx pr.1 s.packsUnlocked s.cardsPerSource }
  let rem := removeCardFromGoals pr.1 s.goals s.cardsPerSource
  if rem.1 then ({ s with goals := rem.2.1, cardsPerSource := rem.2.2 }, acc.2)
  else
    let remSub := removeCardFromGoals pr.1 s.subGoals []
    if remSub.1 then ({ s with subGoals := remSub.2.1 }, acc.2)
    else (s, acc.2.add pr.1.rarity pr.2)

/-- The projected ledger of the completion check: the current materials with
30 materials of the matching rarity debited for every remaining goal. -/
def craftProjection (goals : List Card) (m : Mats) : Mats :=
  goals.foldl (fun acc c => acc.add c.rarity (-30)) m

/-- The draw-and-bookkeep suite shared by all charging branches of the main
loop (`simulator.py` lines 339-388): perform a ten-draw via the oracle with
the pack's running pity, store the updated pity, process every drawn card,
credit the pull's materials, then run the completion check.  The boolean is
`true` exactly when the Python `break` executes. -/
def pullPhase (ctx : Ctx) (i : Nat) (source : Pack) (s : SimState) :
    SimState × Bool :=
  let pull := ctx.oracle i source ((alookup s.perPackPity source).getD 0)
  let s := { s with perPackPity := alistSet s.perPackPity source pull.pity }
  let acc := (pull.cards.zip pull.finishes).foldl (processCard ctx) (s, pull.materials)
  let s := { acc.1 with materials := acc.1.materials.addAll acc.2 }
  let remaining := craftProjection s.goals s.materials
  if remaining.nonneg then
    if ctx.noCrafting && !s.goals.isEmpty then (s, false) else (s, true)
  else (s, false)

/-- The unlock-by-crafting branch for a chosen locked secret/selection pack:
craft a needed Super from the pack's relevant goals (30 Super materials),
else a needed Ultra (30 Ultra materials), else an untracked generic Super
(20 Super materials). -/
def craftUnlock (s : SimState) (source : Pack) : SimState :=
  let cs := (alookup s.cardsPerSource source).getD []
  match cs.find? fun c => decide (c.rarity = Rarity.Super) with
  | some craft =>
    let rem := removeCardFromGoals craft s.goals s.cardsPerSource
    { s with goals := rem.2.1, cardsPerSource := rem.2.2,
             materials := s.materials.add Rarity.Super (-30) }
  | none =>
    match cs.find? fun c => decide (c.rarity = Rarity.Ultra) with
    | some craft =>
      let rem := removeCardFromGoals craft s.goals s.cardsPerSource
      { s with goals := rem.2.1, cardsPerSource := rem.2.2,
               materials := s.materials.add Rarity.Ultra (-30) }
    | none => { s with materials := s.materials.add Rarity.Super (-20) }

/-- The bundle-purchase featured-card bookkeeping for one featured card:
remove it from main goals first, then from sub goals, else credit the ledger
with the fixed dismantle value 10 at the card's rarity (`simulator.py` lines
263-274). -/
def processFeatured (s : SimState) (f : Card) : SimState :=
  let rem := removeCardFromGoals f s.goals s.cardsPerSource
  if rem.1 then { s with goals := rem.2.1, cardsPerSource := rem.2.2 }
  else
    let remSub := removeCardFromGoals f s.subGoals []
    if remSub.1 then { s with subGoals := remSub.2.1 }
    else { s with materials := s.materials.add f.rarity 10 }

/-- One iteration of the 50-bounded main loop of `simulation`.  The boolean
is `true` exactly when the iteration executes the Python `break`. -/
def simStep (ctx : Ctx) (i : Nat) (s : SimState) : SimState × Bool :=
  match s.mustBuy.getLast? with
  | some bundle =>
    let s := { s with mustBuy := s.mustBuy.dropLast }
    if ¬ ∃ f ∈ bundle.featured_cards, f ∈ s.goals then (s, false)
    else
      let s := bundle.featured_cards.foldl processFeatured s
      let s := { s with cost := s.cost + bundle.cost }
      pullPhase ctx i bundle.featured_pack s
  | none =>
    match s.cardsPerSource with
    | [] => pullPhase ctx i ctx.masterPack { s with cost := s.cost + 1000 }
    | e :: es =>
      let source := pyMaxKey (expectedReturn ctx (e :: es)) e.1 (es.map Prod.fst)
      if source.is_normal_pack = false ∧ source ∉ s.packsUnlocked then
        let s := craftUnlock s source
        ({ s with packsUnlocked := setAdd s.packsUnlocked source }, false)
      else
        pullPhase ctx i source { s with cost := s.cost + 1000 }

/-- `for _ in range(50)` with `break`: run at most `fuel` iterations; the
boolean records whether the loop broke out early via the completion check. -/
def simLoop (ctx : Ctx) : Nat → SimState → SimState × Bool
  | 0, s => (s, false)
  | n + 1, s =>
    let r := simStep ctx (n + 1) s
    if r.2 then (r.1, true) else simLoop ctx n r.1

/-- The number of loop iterations actually executed (instrumentation of
`simLoop` for the termination statement). -/
def simLoopSteps (ctx : Ctx) : Nat → SimState → Nat
  | 0, _ => 0
  | n + 1, s =>
    let r := simStep ctx (n + 1) s
    if r.2 then 1 else 1 + simLoopSteps ctx n r.1

/-- The state of one `simulation` invocation after its setup prologue:
copied goals with gifts removed (and staples, under `core_only`), the copied
sub-goal list, the totalised materials ledger, the copied unlocked-pack set,
the per-source goal index, empty pity counters, the must-buy bundle list and
zero cost. -/
def initState (ctx : Ctx) (goals subGoals : List Card) (materials : Mats)
    (packsUnlocked : List Pack) (bundles : List Bundle) (coreOnly : Bool)
    (gifts : Option (List Card)) (staples : Option (List Card)) : SimState :=
  let goals := removeGifts goals gifts
  let goals := if coreOnly then goals.filter (fun g => !stapleFlag staples g)
               else goals
  { goals := goals
    subGoals := subGoals
    materials := materials
    packsUnlocked := packsUnlocked
    cardsPerSource := findGoalSources ctx.sources goals packsUnlocked
    perPackPity := []
    mustBuy := computeMustBuy goals bundles
    cost := 0 }

/-- One full run of `simulation`: setup followed by the 50-bounded main
loop.  Optional arguments are `Option`-typed with `none` for Python `None`
(a `None` ledger/set/list and an empty one are interchangeable, as in the
source's `x or default` idiom).  Returns the final state and whether the
loop broke early. -/
def simulationRun (env : Env) (goals : List Card)
    (subGoals : Option (List Card)) (materials : Option (List (Rarity × Int)))
    (packsUnlocked : Option (List Pack)) (bundles : Option (List Bundle))
    (coreOnly : Bool) (rarityWeight : Rarity → Option ℚ)
    (gifts : Option (List Card)) (staples : Option (List Card))
    (log : Bool) (noCrafting : Bool) : SimState × Bool :=
  let ctx : Ctx := ⟨env, rarityWeight, log, noCrafting⟩
  simLoop ctx 50
    (initState ctx goals (subGoals.getD []) (Mats.ofAList (materials.getD []))
      (packsUnlocked.getD []) (bundles.getD []) coreOnly gifts staples)

/-- `simulation` from `simulator.py`: the sampled gem cost, the final
materials ledger and the list of goals not directly obtained. -/
def simulation (env : Env) (goals : List Card)
    (subGoals : Option (List Card)) (materials : Option (List (Rarity × Int)))
    (packsUnlocked : Option (List Pack)) (bundles : Option (List Bundle))
    (coreOnly : Bool) (rarityWeight : Rarity → Option ℚ)
    (gifts : Option (List Card)) (staples : Option (List Card))
    (log : Bool) (noCrafting : Bool) : Int × Mats × List Card :=
  let r := simulationRun env goals subGoals materials packsUnlocked bundles
    coreOnly rarityWeight gifts staples log noCrafting
  (r.1.cost, r.1.materials, r.1.goals)

/-- The number of main-loop iterations a `simulation` call executes. -/
def simulationSteps (env : Env) (goals : List Card)
    (subGoals : Option (List Card)) (materials : Option (List (Rarity × Int)))
    (packsUnlocked : Option (List Pack)) (bundles : Option (List Bundle))
    (coreOnly : Bool) (rarityWeight : Rarity → Option ℚ)
    (gifts : Option (List Card)) (staples : Option (List Card))
    (log : Bool) (noCrafting : Bool) : Nat :=
  let ctx : Ctx := ⟨env, rarityWeight, log, noCrafting⟩
  simLoopSteps ctx 50
    (initState ctx goals (subGoals.getD []) (Mats.ofAList (materials.getD []))
      (packsUnlocked.getD []) (bundles.getD []) coreOnly gifts staples)

/-!
Heap-level rendering of `simulation` for the aliasing/frame claim.  The four
caller-supplied mutable collections (`goals`, `sub_goals`, `materials`,
`packs_unlocked`) live in typed stores addressed by natural-number
references.  The source copies each of them before use (`simulator.py` lines
171, 172, 175, 208); after those copies the loop only ever names the local
bindings, so every subsequent in-place operation targets the four freshly
allocated cells, which is rendered here by running the per-run pipeline on
the copied values and storing the final values back into the fresh cells.
The remaining collection arguments (`bundles`, `rarity_weight`, `gifts`,
`staples`) are only ever read by the source (`in`, `.get`, `.count`,
iteration) and are passed by value.
-/

/-- Typed stores for the caller-visible Python objects: card lists, partial
material dicts, and pack sets. -/
structure Heap where
  listCells : Nat → List Card
  matCells : Nat → List (Rarity × Int)
  packCells : Nat → List Pack
  next : Nat

/-- Overwrite a card-list cell. -/
def Heap.writeList (h : Heap) (r : Nat) (v : List Card) : Heap :=
  { h with listCells := fun i => if i = r then v else h.listCells i }

/-- Overwrite a material-dict cell. -/
def Heap.writeMat (h : Heap) (r : Nat) (v : List (Rarity × Int)) : Heap :=
  { h with matCells := fun i => if i = r then v else h.matCells i }

/-- Overwrite a pack-set cell. -/
def Heap.writePack (h : Heap) (r : Nat) (v : List Pack) : Heap :=
  { h with packCells := fun i => if i = r then v else h.packCells i }

/-- Allocate a fresh card-list cell (a `list.copy()`). -/
def Heap.allocList (h : Heap) (v : List Card) : Nat × Heap :=
  (h.next, { h.writeList h.next v with next := h.next + 1 })

/-- Allocate a fresh material-dict cell (a `dict.copy()`). -/
def Heap.allocMat (h : Heap) (v : List (Rarity × Int)) : Nat × Heap :=
  (h.next, { h.writeMat h.next v with next := h.next + 1 })

/-- Allocate a fresh pack-set cell (a `set.copy()`). -/
def Heap.allocPack (h : Heap) (v : List Pack) : Nat × Heap :=
  (h.next, { h.writePack h.next v with next := h.next + 1 })

/-- `simulation` at the heap level.  `goalsRef` is the caller's goal list;
`subGoalsRef`, `matsRef` and `unlockedRef` are the caller's optional
collections (`none` is Python `None`).  Returns the cost together with the
references holding the returned `materials` and `goals` objects (the source
returns its local copies), and the final heap. -/
def simulationH (env : Env) (h : Heap) (goalsRef : Nat)
    (subGoalsRef matsRef unlockedRef : Option Nat)
    (bundles : Option (List Bundle)) (coreOnly : Bool)
    (rarityWeight : Rarity → Option ℚ) (gifts staples : Option (List Card))
    (log noCrafting : Bool) : (Int × Nat × Nat) × Heap :=
  let ctx : Ctx := ⟨env, rarityWeight, log, noCrafting⟩
  let matsVal := Mats.ofAList
    (match matsRef with | none => [] | some r => h.matCells r)
  let unlockedVal := match unlockedRef with | none => [] | some r => h.packCells r
  let goalsVal := h.listCells goalsRef
  let subVal := match subGoalsRef with | none => [] | some r => h.listCells r
  let mAlloc := h.allocMat matsVal.toAList
  let uAlloc := mAlloc.2.allocPack unlockedVal
  let gAlloc := uAlloc.2.allocList goalsVal
  let sAlloc := gAlloc.2.allocList subVal
  let r := simLoop ctx 50
    (initState ctx goalsVal subVal matsVal unlockedVal (bundles.getD [])
      coreOnly gifts staples)
  let hOut := sAlloc.2.writeMat mAlloc.1 r.1.materials.toAList
  let hOut := hOut.writePack uAlloc.1 r.1.packsUnlocked
  let hOut := hOut.writeList gAlloc.1 r.1.goals
  let hOut := hOut.writeList sAlloc.1 r.1.subGoals
  ((r.1.cost, mAlloc.1, gAlloc.1), hOut)

/-!
Embedding of `names_to_decklist` from `util.py`.  The standard-library
fuzzy matcher `difflib.get_close_matches` is an external collaborator and
is abstracted as a function `close` from a lowercased candidate name and the
list of known lowercased names to the ranked list of close matches; the
library guarantees every returned match is drawn from the supplied
possibilities.
-/

/-- The errors raised by `names_to_decklist` (the three `ValueError`s of
`util.py`, with the context they carry). -/
inductive DeckErr
  | notFound (name : String)
  | ambiguous (name : String) (cands : List String)
  | noFullMatch (name : String) (best : String)
deriving DecidableEq, Repr

/-- `{card.name.lower(): card for card in db.cards.values()}`: the
lowercased-name index, later entries overwriting earlier ones in place. -/
def buildAvailable (cards : List Card) : List (String × Card) :=
  cards.foldl (fun av c => alistSet av c.name.toLower c) []

/-- `int(goal_name[0])` for a leading digit in `"123"`. -/
def digitCount (c : Char) : Nat :=
  if c = '1' then 1 else if c = '2' then 2 else 3

/-- The count prefix parse: a leading character in `"123"` is the copy
count and is stripped (with surrounding whitespace); otherwise the count
is 1. -/
def parseCount (n : String) : Nat × String :=
  if n.front = '1' ∨ n.front = '2' ∨ n.front = '3'
  then (digitCount n.front, (n.drop 1).trim)
  else (1, n)

/-- The per-name loop of `names_to_decklist`, with the goal and translation
accumulators explicit.  The `none` case after a unique fuzzy match cannot
occur when `close` honours the difflib contract (matches are drawn from the
possibilities); it renders the `KeyError` Python would raise otherwise. -/
def namesToDecklistAux (available : List (String × Card))
    (close : String → List String → List String) (fullMatch : Bool) :
    List String → List Card → List (String × String) →
    Except DeckErr (List Card × List (String × String))
  | [], goals, transl => Except.ok (goals, transl)
  | n :: rest, goals, transl =>
    if n = "" then namesToDecklistAux available close fullMatch rest goals transl
    else
      let p := parseCount n
      match alookup available p.2.toLower with
      | some card =>
        namesToDecklistAux available close fullMatch rest
          (goals ++ List.replicate p.1 card) transl
      | none =>
        match close p.2.toLower (available.map Prod.fst) with
        | [] => Except.error (DeckErr.notFound p.2)
        | [m] =>
          match alookup available m with
          | some transCard =>
            if fullMatch && !(p.2.toLower = transCard.name.toLower : Bool) then
              Except.error (DeckErr.noFullMatch p.2 transCard.name)
            else
              namesToDecklistAux available close fullMatch rest
                (goals ++ List.replicate p.1 transCard)
                (alistSet transl p.2 transCard.name)
          | none => Except.error (DeckErr.notFound p.2)
        | m1 :: m2 :: ms => Except.error (DeckErr.ambiguous p.2 (m1 :: m2 :: ms))

/-- `names_to_decklist` from `util.py`, over the card catalog and the
abstracted fuzzy matcher. -/
def namesToDecklist (cards : List Card)
    (close : String → List String → List String)
    (cardnames : List String) (fullMatch : Bool) :
    Except DeckErr (List Card × List (String × String)) :=
  namesToDecklistAux (buildAvailable cards) close fullMatch cardnames [] []

/-! ### Basic lemmas about the container and ledger operations -/

theorem Mats.le_def (a b : Mats) :
    a.le b ↔ (a.common ≤ b.common ∧ a.rare ≤ b.rare ∧
      a.super ≤ b.super ∧ a.ultra ≤ b.ultra) := Iff.rfl

theorem Mats.le_refl (m : Mats) : m.le m := by
  rw [Mats.le_def]
  omega

theorem Mats.le_trans {a b c : Mats} (h1 : a.le b) (h2 : b.le c) : a.le c := by
  rw [Mats.le_def] at h1 h2 ⊢
  omega

theorem Mats.le_add_of_nonneg (m : Mats) (r : Rarity) {v : Int} (hv : 0 ≤ v) :
    m.le (m.add r v) := by
  cases r <;> simp only [Mats.add, Mats.set, Mats.get, Mats.le_def] <;> omega

theorem Mats.nonneg_iff_zero_le (m : Mats) : m.nonneg = true ↔ Mats.zero.le m := by
  simp only [Mats.nonneg, Mats.le_def, Mats.zero, Bool.and_eq_true, decide_eq_true_eq]
  omega

theorem Mats.nonneg_add {m : Mats} {r : Rarity} {v : Int}
    (hm : m.nonneg = true) (hv : 0 ≤ v) : (m.add r v).nonneg = true := by
  rw [Mats.nonneg_iff_zero_le] at hm ⊢
  exact Mats.le_trans hm (m.le_add_of_nonneg r hv)

theorem Mats.nonneg_addAll {m p : Mats}
    (hm : m.nonneg = true) (hp : p.nonneg = true) : (m.addAll p).nonneg = true := by
  simp only [Mats.nonneg, Mats.addAll, Bool.and_eq_true, decide_eq_true_eq] at hm hp ⊢
  omega

theorem alookup_alistSet_self {κ ν : Type} [DecidableEq κ]
    (l : List (κ × ν)) (k : κ) (v : ν) : alookup (alistSet l k v) k = some v := by
  induction l with
  | nil => simp [alistSet, alookup]
  | cons e es ih =>
    by_cases he : e.1 = k
    · simp [alistSet, he, alookup]
    · simp [alistSet, he, alookup, ih]

theorem alookup_isSome_of_mem_keys {κ ν : Type} [DecidableEq κ]
    {l : List (κ × ν)} {k : κ} (h : k ∈ l.map Prod.fst) :
    (alookup l k).isSome = true := by
  induction l with
  | nil => simp at h
  | cons e es ih =>
    rcases List.mem_cons.1 h with he | he
    · simp [alookup, he.symm]
    · by_cases hk : e.1 = k
      · simp [alookup, hk]
      · simp [alookup, hk]
        exact ih he

/-! ### Field preservation through the phases of the main loop -/

theorem processFeatured_fields (s : SimState) (f : Card) :
    (processFeatured s f).cost = s.cost ∧
    (processFeatured s f).mustBuy = s.mustBuy ∧
    (processFeatured s f).perPackPity = s.perPackPity ∧
    (processFeatured s f).packsUnlocked = s.packsUnlocked := by
  simp only [processFeatured]
  split
  · exact ⟨rfl, rfl, rfl, rfl⟩
  · split
    · exact ⟨rfl, rfl, rfl, rfl⟩
    · exact ⟨rfl, rfl, rfl, rfl⟩

theorem foldl_processFeatured_fields (fs : List Card) (s : SimState) :
    (fs.foldl processFeatured s).cost = s.cost ∧
    (fs.foldl processFeatured s).mustBuy = s.mustBuy ∧
    (fs.foldl processFeatured s).perPackPity = s.perPackPity ∧
    (fs.foldl processFeatured s).packsUnlocked = s.packsUnlocked := by
  induction fs generalizing s with
  | nil => exact ⟨rfl, rfl, rfl, rfl⟩
  | cons f fs ih =>
    obtain ⟨h1, h2, h3, h4⟩ := processFeatured_fields s f
    obtain ⟨g1, g2, g3, g4⟩ := ih (processFeatured s f)
    exact ⟨g1.trans h1, g2.trans h2, g3.trans h3, g4.trans h4⟩

theorem processCard_fields (ctx : Ctx) (a : SimState × Mats) (pr : Card × Int) :
    (processCard ctx a pr).1.cost = a.1.cost ∧
    (processCard ctx a pr).1.mustBuy = a.1.mustBuy ∧
    (processCard ctx a pr).1.perPackPity = a.1.perPackPity ∧
    (processCard ctx a pr).1.materials = a.1.materials := by
  simp only [processCard]
  split
  · exact ⟨rfl, rfl, rfl, rfl⟩
  · split
    · exact ⟨rfl, rfl, rfl, rfl⟩
    · exact ⟨rfl, rfl, rfl, rfl⟩

theorem foldl_processCard_fields (ctx : Ctx) (prs : List (Card × Int))
    (a : SimState × Mats) :
    ((prs.foldl (processCard ctx) a).1.cost = a.1.cost ∧
      (prs.foldl (processCard ctx) a).1.mustBuy = a.1.mustBuy) ∧
    (prs.foldl (processCard ctx) a).1.perPackPity = a.1.perPackPity := by
  induction prs generalizing a with
  | nil => exact ⟨⟨rfl, rfl⟩, rfl⟩
  | cons pr prs ih =>
    obtain ⟨h1, h2, h3, _⟩ := processCard_fields ctx a pr
    obtain ⟨⟨g1, g2⟩, g3⟩ := ih (processCard ctx a pr)
    exact ⟨⟨g1.trans h1, g2.trans h2⟩, g3.trans h3⟩

theorem pullPhase_fields (ctx : Ctx) (i : Nat) (p : Pack) (s : SimState) :
    (pullPhase ctx i p s).1.cost = s.cost ∧
    (pullPhase ctx i p s).1.mustBuy = s.mustBuy ∧
    (pullPhase ctx i p s).1.perPackPity =
      alistSet s.perPackPity p
        ((ctx.oracle i p ((alookup s.perPackPity p).getD 0)).pity) := by
  simp only [pullPhase]
  split
  · split
    · exact ⟨(foldl_processCard_fields ctx _ _).1.1,
        (foldl_processCard_fields ctx _ _).1.2, (foldl_processCard_fields ctx _ _).2⟩
    · exact ⟨(foldl_processCard_fields ctx _ _).1.1,
        (foldl_processCard_fields ctx _ _).1.2, (foldl_processCard_fields ctx _ _).2⟩
  · exact ⟨(foldl_processCard_fields ctx _ _).1.1,
      (foldl_processCard_fields ctx _ _).1.2, (foldl_processCard_fields ctx _ _).2⟩

theorem craftUnlock_fields (s : SimState) (source : Pack) :
    (craftUnlock s source).cost = s.cost ∧
    (craftUnlock s source).mustBuy = s.mustBuy ∧
    (craftUnlock s source).packsUnlocked = s.packsUnlocked := by
  simp only [craftUnlock]
  split
  · exact ⟨rfl, rfl, rfl⟩
  · split
    · exact ⟨rfl, rfl, rfl⟩
    · exact ⟨rfl, rfl, rfl⟩

/-! ### Behaviour of `_remove_card_from_goals` and the bundle branch -/

theorem removeCardFromGoals_pos {card : Card} {goals : List Card}
    (ps : List (Pack × List Card)) (h : card ∈ goals) :
    (removeCardFromGoals card goals ps).1 = true ∧
    (removeCardFromGoals card goals ps).2.1 = eraseFirst goals card := by
  simp only [removeCardFromGoals]
  rw [if_pos h]
  split
  · exact ⟨rfl, rfl⟩
  · exact ⟨rfl, rfl⟩

theorem removeCardFromGoals_neg {card : Card} {goals : List Card}
    (ps : List (Pack × List Card)) (h : card ∉ goals) :
    removeCardFromGoals card goals ps = (false, goals, ps) := by
  simp only [removeCardFromGoals]
  rw [if_neg h]

theorem processFeatured_of_mem_goals {t : SimState} {f : Card}
    (hf : f ∈ t.goals) :
    (processFeatured t f).goals = eraseFirst t.goals f ∧
    (processFeatured t f).subGoals = t.subGoals ∧
    (processFeatured t f).materials = t.materials := by
  obtain ⟨h1, h2⟩ := removeCardFromGoals_pos t.cardsPerSource hf
  simp only [processFeatured, h1, if_true]
  refine ⟨?_, ?_, ?_⟩ <;> first | exact h2 | rfl | trivial

theorem processFeatured_of_mem_sub {t : SimState} {f : Card}
    (hg : f ∉ t.goals) (hs : f ∈ t.subGoals) :
    (processFeatured t f).goals = t.goals ∧
    (processFeatured t f).subGoals = eraseFirst t.subGoals f ∧
    (processFeatured t f).materials = t.materials := by
  have h0 := removeCardFromGoals_neg t.cardsPerSource hg
  obtain ⟨h1, h2⟩ := removeCardFromGoals_pos [] hs
  simp only [processFeatured, h0, h1, if_true, if_false, Bool.false_eq_true]
  refine ⟨?_, ?_, ?_⟩ <;> first | exact h2 | rfl | trivial

theorem processFeatured_of_mem_neither {t : SimState} {f : Card}
    (hg : f ∉ t.goals) (hs : f ∉ t.subGoals) :
    (processFeatured t f).goals = t.goals ∧
    (processFeatured t f).subGoals = t.subGoals ∧
    (processFeatured t f).materials = t.materials.add f.rarity 10 := by
  have h0 := removeCardFromGoals_neg t.cardsPerSource hg
  have h1 := removeCardFromGoals_neg [] hs
  simp only [processFeatured, h0, h1, if_false, Bool.false_eq_true]
  refine ⟨?_, ?_, ?_⟩ <;> first | rfl | trivial

theorem simStep_bundle_skip (ctx : Ctx) (i : Nat) (s : SimState)
    (mb : List Bundle) (B : Bundle) (h : s.mustBuy = mb ++ [B])
    (hnone : ∀ f ∈ B.featured_cards, f ∉ s.goals) :
    simStep ctx i s = ({ s with mustBuy := mb }, false) := by
  simp only [simStep, h, List.getLast?_concat, List.dropLast_concat]
  rw [if_pos]
  rintro ⟨f, hf, hmem⟩
  exact hnone f hf hmem

theorem simStep_bundle_buy (ctx : Ctx) (i : Nat) (s : SimState)
    (mb : List Bundle) (B : Bundle) (h : s.mustBuy = mb ++ [B])
    (hex : ∃ f ∈ B.featured_cards, f ∈ s.goals) :
    simStep ctx i s = pullPhase ctx i B.featured_pack
      { B.featured_cards.foldl processFeatured { s with mustBuy := mb } with
          cost := s.cost + B.cost } := by
  simp only [simStep, h, List.getLast?_concat, List.dropLast_concat]
  rw [if_neg (not_not_intro hex)]
  rw [(foldl_processFeatured_fields B.featured_cards { s with mustBuy := mb }).1]

/-! ### Membership of the post-draw unlock folds -/

theorem mem_foldl_setAdd {α : Type} [DecidableEq α] {x : α} (ps : List α)
    (ul : List α) : x ∈ ps.foldl setAdd ul ↔ x ∈ ul ∨ x ∈ ps := by
  induction ps generalizing ul with
  | nil => simp
  | cons p ps ih =>
    rw [List.foldl_cons, ih]
    unfold setAdd
    by_cases hp : p ∈ ul
    · rw [if_pos hp]
      simp only [List.mem_cons]
      constructor
      · rintro (h | h)
        · exact Or.inl h
        · exact Or.inr (Or.inr h)
      · rintro (h | rfl | h)
        · exact Or.inl h
        · exact Or.inl hp
        · exact Or.inr h
    · rw [if_neg hp]
      simp only [List.mem_append, List.mem_cons, List.not_mem_nil, or_false]
      constructor
      · rintro ((h | rfl) | h)
        · exact Or.inl h
        · exact Or.inr (Or.inl rfl)
        · exact Or.inr (Or.inr h)
      · rintro (h | rfl | h)
        · exact Or.inl (Or.inl h)
        · exact Or.inl (Or.inr rfl)
        · exact Or.inr h

theorem mem_foldl_unlockLog (cps : List (Pack × List Card)) (x : Pack)
    (ps ul : List Pack) :
    (x ∈ ps.foldl
      (fun ul p => if p ∉ ul ∧ (alookup cps p).isSome then ul ++ [p] else ul)
      ul) ↔
      x ∈ ul ∨ (x ∈ ps ∧ (alookup cps x).isSome = true) := by
  induction ps generalizing ul with
  | nil => simp
  | cons p ps ih =>
    rw [List.foldl_cons, ih]
    by_cases hc : p ∉ ul ∧ (alookup cps p).isSome
    · rw [if_pos hc]
      simp only [List.mem_append, List.mem_cons, List.not_mem_nil, or_false]
      constructor
      · rintro ((h | rfl) | h)
        · exact Or.inl h
        · exact Or.inr ⟨Or.inl rfl, hc.2⟩
        · exact Or.inr ⟨Or.inr h.1, h.2⟩
      · rintro (h | ⟨rfl | hm, hl⟩)
        · exact Or.inl (Or.inl h)
        · exact Or.inl (Or.inr rfl)
        · exact Or.inr ⟨hm, hl⟩
    · rw [if_neg hc]
      push_neg at hc
      simp only [List.mem_cons]
      constructor
      · rintro (h | h)
        · exact Or.inl h
        · exact Or.inr ⟨Or.inr h.1, h.2⟩
      · rintro (h | ⟨rfl | hm, hl⟩)
        · exact Or.inl h
        · by_cases hpu : x ∈ ul
          · exact Or.inl hpu
          · exact absurd hl (hc hpu)
        · exact Or.inr ⟨hm, hl⟩

/-! ### Concrete environments used by counterexamples and witnesses -/

/-- A normal pack with no tracked cards. -/
def junkPack : Pack := ⟨"Junk Pack", [], true, []⟩

/-- A locked secret pack. -/
def secretP : Pack := ⟨"Secret Pack", [], false, []⟩

/-- An Ultra goal card with no sources. -/
def cardU : Card := ⟨"goal ultra", Rarity.Ultra, false, 0⟩

/-- A Super card that every junk pull contains. -/
def cardS : Card := ⟨"super pull", Rarity.Super, false, 0⟩

/-- A Common filler card. -/
def cardN : Card := ⟨"common pull", Rarity.Common, false, 0⟩

/-- A ten-card pull: one Super worth 10 materials and nine Commons worth 0,
with no base materials; pity resets to 0. -/
def junkPull : Pull :=
  ⟨[cardS, cardN, cardN, cardN, cardN, cardN, cardN, cardN, cardN, cardN],
   [10, 0, 0, 0, 0, 0, 0, 0, 0, 0], 0, Mats.zero⟩

/-- An environment whose catalog has no per-card sources and whose draw
engine always answers with `junkPull`. -/
def env0 : Env := ⟨fun _ => [], junkPack, fun _ _ _ => junkPull⟩

/-- `env0` with all policy arguments at their defaults. -/
def ctx0 : Ctx := ⟨env0, fun _ => none, false, false⟩

/-- An environment where `cardS` is sourced from `secretP`, with a
diagnostic logger supplied (`log = true`). -/
def ctxLog : Ctx :=
  ⟨⟨fun c => if c = cardS then [secretP] else [], junkPack, fun _ _ _ => junkPull⟩,
   fun _ => none, true, false⟩

/-! ### Claim C1 -/

/-- Claim C1, counterexample: with a diagnostic logger supplied
(`log = true`), the post-draw bookkeeping for the drawn Super card `cardS`
does not add its source pack `secretP` to the unlocked set, because the pack
does not appear in `cards_per_source` — refuting the claim that every pack
in `sources[card]` is added regardless of whether a logger is supplied. -/
theorem c1_counterexample :
    cardS.rarity = Rarity.Super ∧
    secretP ∈ ctxLog.sources cardS ∧
    ctxLog.log = true ∧
    secretP ∉ unlockForCard ctxLog cardS [] [] ∧
    (processCard ctxLog (⟨[], [], Mats.zero, [], [], [], [], 0⟩, Mats.zero)
      (cardS, 0)).1.packsUnlocked = [] := by
  decide

/-- Claim C1, amended: for a drawn card of rarity Super or Ultra the
post-draw bookkeeping adds, with no logger supplied, every pack in
`sources[card]` to the unlocked set; with a logger supplied it adds only the
packs in `sources[card]` that currently appear in the per-source goal index
`cards_per_source` (packs already unlocked stay unlocked in both modes) —
and this unlocking is exactly what `processCard` applies to the running
state. -/
theorem c1_unlock_filter (ctx : Ctx) (card : Card) (packsUnlocked : List Pack)
    (cps : List (Pack × List Card)) (p : Pack)
    (hr : card.rarity = Rarity.Super ∨ card.rarity = Rarity.Ultra) :
    (p ∈ unlockForCard ctx card packsUnlocked cps ↔
      p ∈ packsUnlocked ∨ (p ∈ ctx.sources card ∧
        (ctx.log = false ∨ (alookup cps p).isSome = true))) ∧
    (∀ a : SimState × Mats, ∀ v : Int,
      (processCard ctx a (card, v)).1.packsUnlocked =
        unlockForCard ctx card a.1.packsUnlocked a.1.cardsPerSource) := by
  constructor
  · unfold unlockForCard
    rw [if_pos hr]
    cases hl : ctx.log
    · simp only [Bool.false_eq_true, if_false]
      rw [mem_foldl_setAdd]
      simp
    · simp only [if_true]
      rw [mem_foldl_unlockLog]
      simp
  · intro a v
    simp only [processCard]
    split
    · rfl
    · split
      · rfl
      · rfl

/-- Witness for `c1_unlock_filter` at a concrete Super card, empty unlocked
set and empty per-source index. -/
theorem c1_unlock_filter_witness :
    (cardS.rarity = Rarity.Super ∨ cardS.rarity = Rarity.Ultra) ∧
    (secretP ∈ unlockForCard ctx0 cardS [] [] ↔
      secretP ∈ ([] : List Pack) ∨ (secretP ∈ ctx0.sources cardS ∧
        (ctx0.log = false ∨
          (alookup ([] : List (Pack × List Card)) secretP).isSome = true))) := by
  exact ⟨Or.inl rfl, (c1_unlock_filter ctx0 cardS [] [] secretP (Or.inl rfl)).1⟩

/-! ### Claim C2 -/

/-- A goal card that stays in the goal list through the counterexample. -/
def cardY : Card := ⟨"other goal", Rarity.Ultra, false, 0⟩

/-- The featured card of the counterexample bundle: a sub-goal only. -/
def cardX : Card := ⟨"featured", Rarity.Super, false, 0⟩

/-- A bundle featuring `cardX`. -/
def bundleB : Bundle := ⟨"Featured Bundle", 500, junkPack, [cardX]⟩

/-- A loop state whose must-buy list holds `bundleB`, whose goal list no
longer holds the featured card but whose sub-goal list does. -/
def stateC2 : SimState := ⟨[cardY], [cardX], Mats.zero, [], [], [], [bundleB], 0⟩

/-- Claim C2, counterexample: the popped bundle's featured card is absent
from the goal list but still present in the sub-goal list, and the
iteration nevertheless skips the bundle without charging its (non-zero)
cost and without removing the featured card from the sub-goals — refuting
the claim that a bundle is skipped only when its featured cards are in
neither list. -/
theorem c2_counterexample :
    (∀ f ∈ bundleB.featured_cards, f ∉ stateC2.goals) ∧
    (∃ f ∈ bundleB.featured_cards, f ∈ stateC2.subGoals) ∧
    simStep ctx0 1 stateC2 = ({ stateC2 with mustBuy := [] }, false) ∧
    (simStep ctx0 1 stateC2).1.cost = stateC2.cost ∧
    (simStep ctx0 1 stateC2).1.subGoals = stateC2.subGoals ∧
    bundleB.cost ≠ 0 := by
  decide

/-- Claim C2, amended: in a main-loop iteration with a non-empty must-buy
list the last bundle is popped; it is skipped without charging exactly when
none of its featured cards is still in the goal list (the sub-goal list is
not consulted for the skip decision).  Otherwise its cost is charged and
each featured card is removed from goals first, then from sub-goals, and a
featured card present in neither credits the ledger with 10 materials of
its rarity. -/
theorem c2_bundle_skip_condition (ctx : Ctx) (i : Nat) (s : SimState)
    (mb : List Bundle) (B : Bundle) (h : s.mustBuy = mb ++ [B]) :
    ((∀ f ∈ B.featured_cards, f ∉ s.goals) →
      simStep ctx i s = ({ s with mustBuy := mb }, false)) ∧
    ((∃ f ∈ B.featured_cards, f ∈ s.goals) →
      simStep ctx i s = pullPhase ctx i B.featured_pack
        { B.featured_cards.foldl processFeatured { s with mustBuy := mb } with
            cost := s.cost + B.cost } ∧
      (simStep ctx i s).1.cost = s.cost + B.cost) ∧
    (∀ t : SimState, ∀ f : Card,
      (f ∈ t.goals →
        (processFeatured t f).goals = eraseFirst t.goals f ∧
        (processFeatured t f).subGoals = t.subGoals ∧
        (processFeatured t f).materials = t.materials) ∧
      (f ∉ t.goals → f ∈ t.subGoals →
        (processFeatured t f).goals = t.goals ∧
        (processFeatured t f).subGoals = eraseFirst t.subGoals f ∧
        (processFeatured t f).materials = t.materials) ∧
      (f ∉ t.goals → f ∉ t.subGoals →
        (processFeatured t f).goals = t.goals ∧
        (processFeatured t f).subGoals = t.subGoals ∧
        (processFeatured t f).materials = t.materials.add f.rarity 10)) := by
  refine ⟨fun hnone => simStep_bundle_skip ctx i s mb B h hnone, fun hex => ?_, ?_⟩
  · have hstep := simStep_bundle_buy ctx i s mb B h hex
    refine ⟨hstep, ?_⟩
    rw [hstep]
    exact (pullPhase_fields ctx i B.featured_pack _).1
  · intro t f
    exact ⟨fun hf => processFeatured_of_mem_goals hf,
      fun hg hs => processFeatured_of_mem_sub hg hs,
      fun hg hs => processFeatured_of_mem_neither hg hs⟩

/-- Witness for `c2_bundle_skip_condition`: the concrete skip situation of
the counterexample state, with the skip conclusion evaluated. -/
theorem c2_bundle_skip_condition_witness :
    stateC2.mustBuy = [] ++ [bundleB] ∧
    (∀ f ∈ bundleB.featured_cards, f ∉ stateC2.goals) ∧
    simStep ctx0 1 stateC2 = ({ stateC2 with mustBuy := [] }, false) := by
  refine ⟨rfl, by decide, ?_⟩
  exact (c2_bundle_skip_condition ctx0 1 stateC2 [] bundleB rfl).1 (by decide)

/-! ### Claim C8 -/

/-- Claim C8: every bundle purchase in the main loop falls through to the
shared draw-and-bookkeep suite on the bundle's featured pack in the same
iteration — the iteration's state passes through `pullPhase` on
`B.featured_pack`, the featured pack's pity counter is set to the pity
returned by the draw engine for this call, and the iteration's entire cost
increase is exactly the bundle's price. -/
theorem c8_bundle_free_draw (ctx : Ctx) (i : Nat) (s : SimState)
    (mb : List Bundle) (B : Bundle) (h : s.mustBuy = mb ++ [B])
    (hex : ∃ f ∈ B.featured_cards, f ∈ s.goals) :
    (∃ t : SimState,
      simStep ctx i s = pullPhase ctx i B.featured_pack t ∧
      t.cost = s.cost + B.cost ∧ t.perPackPity = s.perPackPity) ∧
    (simStep ctx i s).1.cost = s.cost + B.cost ∧
    alookup (simStep ctx i s).1.perPackPity B.featured_pack =
      some ((ctx.oracle i B.featured_pack
        ((alookup s.perPackPity B.featured_pack).getD 0)).pity) := by
  have hstep := simStep_bundle_buy ctx i s mb B h hex
  have hfold := foldl_processFeatured_fields B.featured_cards { s with mustBuy := mb }
  refine ⟨⟨_, hstep, rfl, hfold.2.2.1⟩, ?_, ?_⟩
  · rw [hstep]
    exact (pullPhase_fields ctx i B.featured_pack _).1
  · rw [hstep]
    have hp := (pullPhase_fields ctx i B.featured_pack
      { B.featured_cards.foldl processFeatured { s with mustBuy := mb } with
          cost := s.cost + B.cost }).2.2
    rw [hp]
    have hpp : ({ B.featured_cards.foldl processFeatured { s with mustBuy := mb } with
        cost := s.cost + B.cost } : SimState).perPackPity = s.perPackPity :=
      hfold.2.2.1
    rw [hpp, alookup_alistSet_self]

/-- Witness for `c8_bundle_free_draw`: a concrete state about to buy
`bundleB` with its featured card still a goal. -/
theorem c8_bundle_free_draw_witness :
    (⟨[cardX], [], Mats.zero, [], [], [], [bundleB], 0⟩ : SimState).mustBuy =
      [] ++ [bundleB] ∧
    (∃ f ∈ bundleB.featured_cards,
      f ∈ (⟨[cardX], [], Mats.zero, [], [], [], [bundleB], 0⟩ : SimState).goals) ∧
    (simStep ctx0 1 ⟨[cardX], [], Mats.zero, [], [], [], [bundleB], 0⟩).1.cost =
      (⟨[cardX], [], Mats.zero, [], [], [], [bundleB], 0⟩ : SimState).cost +
        bundleB.cost := by
  refine ⟨rfl, by decide, ?_⟩
  exact (c8_bundle_free_draw ctx0 1 _ [] bundleB rfl (by decide)).2.1

/-! ### Claim C3 -/

theorem pullPhase_broke_craftable (ctx : Ctx) (i : Nat) (p : Pack) (s : SimState) :
    (pullPhase ctx i p s).2 = true →
    (craftProjection (pullPhase ctx i p s).1.goals
      (pullPhase ctx i p s).1.materials).nonneg = true := by
  simp only [pullPhase]
  split
  next hrem =>
    split
    · intro h
      simp at h
    · intro _
      exact hrem
  next hrem =>
    intro h
    simp at h

theorem simStep_broke_craftable (ctx : Ctx) (i : Nat) (s : SimState) :
    (simStep ctx i s).2 = true →
    (craftProjection (simStep ctx i s).1.goals
      (simStep ctx i s).1.materials).nonneg = true := by
  simp only [simStep]
  split
  · split
    · intro h
      simp at h
    · exact pullPhase_broke_craftable ctx i _ _
  · split
    · exact pullPhase_broke_craftable ctx i _ _
    · split
      · intro h
        simp at h
      · exact pullPhase_broke_craftable ctx i _ _

theorem simLoop_broke_craftable (ctx : Ctx) (fuel : Nat) (s : SimState) :
    (simLoop ctx fuel s).2 = true →
    (craftProjection (simLoop ctx fuel s).1.goals
      (simLoop ctx fuel s).1.materials).nonneg = true := by
  induction fuel generalizing s with
  | zero =>
    intro h
    simp [simLoop] at h
  | succ n ih =>
    simp only [simLoop]
    split
    next hr =>
      intro _
      exact simStep_broke_craftable ctx (n + 1) s hr
    next hr =>
      exact ih _

/-- Claim C3, counterexample: a run over a goal list holding one Ultra card
with no sources (50 Master-Pack iterations, draws yielding only a Super and
Commons) returns the Ultra card as unobtained with an Ultra balance of 0, so
the projected ledger after the documented 30-material craft cost is
negative — the returned unobtained list is not craftable from the returned
ledger when the run ends at the iteration bound. -/
theorem c3_counterexample :
    (simulation env0 [cardU] none none none none false (fun _ => none) none none
      false false).2.2 = [cardU] ∧
    ((simulation env0 [cardU] none none none none false (fun _ => none) none none
      false false).2.1).get Rarity.Ultra = 0 ∧
    (craftProjection
      (simulation env0 [cardU] none none none none false (fun _ => none) none none
        false false).2.2
      (simulation env0 [cardU] none none none none false (fun _ => none) none none
        false false).2.1).nonneg = false := by
  decide

/-- Claim C3, amended: whenever a run completes through the loop's
completion check (the Python `break`), the returned unobtained-goal list is
craftable from the returned ledger — for every rarity the final balance
minus 30 materials per unobtained goal of that rarity is non-negative.
Runs that exhaust the 50-iteration bound carry no such guarantee. -/
theorem c3_craftable_on_break (env : Env) (goals : List Card)
    (subGoals : Option (List Card)) (materials : Option (List (Rarity × Int)))
    (packsUnlocked : Option (List Pack)) (bundles : Option (List Bundle))
    (coreOnly : Bool) (rarityWeight : Rarity → Option ℚ)
    (gifts staples : Option (List Card)) (log noCrafting : Bool)
    (h : (simulationRun env goals subGoals materials packsUnlocked bundles
      coreOnly rarityWeight gifts staples log noCrafting).2 = true) :
    (craftProjection
      (simulation env goals subGoals materials packsUnlocked bundles coreOnly
        rarityWeight gifts staples log noCrafting).2.2
      (simulation env goals subGoals materials packsUnlocked bundles coreOnly
        rarityWeight gifts staples log noCrafting).2.1).nonneg = true := by
  exact simLoop_broke_craftable _ 50 _ h

/-- Witness for `c3_craftable_on_break`: the empty-goal run over `env0`
breaks in its first iteration and its returned ledger is craftable. -/
theorem c3_craftable_on_break_witness :
    (simulationRun env0 [] none none none none false (fun _ => none) none none
      false false).2 = true ∧
    (craftProjection
      (simulation env0 [] none none none none false (fun _ => none) none none
        false false).2.2
      (simulation env0 [] none none none none false (fun _ => none) none none
        false false).2.1).nonneg = true := by
  refine ⟨by decide, ?_⟩
  exact c3_craftable_on_break env0 [] none none none none false (fun _ => none)
    none none false false (by decide)

/-! ### Claim C6 -/

theorem simLoopSteps_le (ctx : Ctx) (fuel : Nat) (s : SimState) :
    simLoopSteps ctx fuel s ≤ fuel := by
  induction fuel generalizing s with
  | zero => simp [simLoopSteps]
  | succ n ih =>
    simp only [simLoopSteps]
    split
    · omega
    · have h := ih (simStep ctx (n + 1) s).1
      omega

/-- Claim C6: for every goal list (including the empty one) and every
combination of optional arguments, `simulation` executes at most 50
main-loop iterations.  (The embedding is a total function, so every such
invocation returns a (cost, materials, unobtained-goals) triple rather than
raising.) -/
theorem c6_loop_bounded (env : Env) (goals : List Card)
    (subGoals : Option (List Card)) (materials : Option (List (Rarity × Int)))
    (packsUnlocked : Option (List Pack)) (bundles : Option (List Bundle))
    (coreOnly : Bool) (rarityWeight : Rarity → Option ℚ)
    (gifts staples : Option (List Card)) (log noCrafting : Bool) :
    simulationSteps env goals subGoals materials packsUnlocked bundles coreOnly
      rarityWeight gifts staples log noCrafting ≤ 50 := by
  exact simLoopSteps_le _ 50 _

/-! ### A measure for the unlock-by-crafting iterations

Every main-loop iteration that neither buys a bundle nor charges the fixed
1000-gem pull price is an unlock-by-crafting iteration, and each of those
strictly decreases the number of per-source-index entries whose pack is a
still-locked secret pack.  This yields the cost lower bounds of C4, C5 and
C10. -/

/-- The number of `cards_per_source` entries whose pack is a secret pack not
yet unlocked. -/
def lockedSecretCount (s : SimState) : Nat :=
  s.cardsPerSource.countP fun e =>
    !e.1.is_normal_pack && decide (e.1 ∉ s.packsUnlocked)

theorem countP_le_of_imp {α : Type} (l : List α) (p q : α → Bool)
    (h : ∀ a, q a = true → p a = true) : l.countP q ≤ l.countP p := by
  induction l with
  | nil => simp
  | cons a l ih =>
    rw [List.countP_cons, List.countP_cons]
    by_cases hq : q a = true
    · rw [if_pos hq, if_pos (h a hq)]
      omega
    · rw [if_neg hq]
      split <;> omega

theorem countP_lt_of_witness {α : Type} (l : List α) (p q : α → Bool)
    (himp : ∀ a, q a = true → p a = true) {a : α} (ha : a ∈ l)
    (hpa : p a = true) (hqa : q a = false) :
    l.countP q < l.countP p := by
  induction l with
  | nil => simp at ha
  | cons b l ih =>
    rw [List.countP_cons, List.countP_cons]
    rcases List.mem_cons.1 ha with rfl | hm
    · rw [if_pos hpa, if_neg (by simp [hqa])]
      have h := countP_le_of_imp l p q himp
      omega
    · have h := ih hm
      by_cases hq : q b = true
      · rw [if_pos hq, if_pos (himp b hq)]
        omega
      · rw [if_neg hq]
        split <;> omega

theorem removeCardFromGoals_keys_sublist (card : Card) (goals : List Card)
    (ps : List (Pack × List Card)) :
    ((removeCardFromGoals card goals ps).2.2.map Prod.fst).Sublist
      (ps.map Prod.fst) := by
  have hcomp : (Prod.fst ∘ fun e : Pack × List Card =>
      (e.1, eraseFirst e.2 card)) = Prod.fst := by
    funext e
    rfl
  simp only [removeCardFromGoals]
  split
  · split
    · exact List.Sublist.refl _
    · split
      · have h1 := (@List.filter_sublist (Pack × List Card)
          (fun e => !e.2.isEmpty)
          (ps.map fun e => (e.1, eraseFirst e.2 card))).map Prod.fst
        rw [List.map_map, hcomp] at h1
        exact h1
      · rw [List.map_map, hcomp]
  · exact List.Sublist.refl _

theorem craftUnlock_keys_sublist (s : SimState) (source : Pack) :
    ((craftUnlock s source).cardsPerSource.map Prod.fst).Sublist
      (s.cardsPerSource.map Prod.fst) := by
  simp only [craftUnlock]
  split
  · exact removeCardFromGoals_keys_sublist _ _ _
  · split
    · exact removeCardFromGoals_keys_sublist _ _ _
    · exact List.Sublist.refl _

theorem pyMaxKey_mem (f : Pack → ℚ) (e : Pack) (es : List Pack) :
    pyMaxKey f e es ∈ e :: es := by
  induction es generalizing e with
  | nil => simp [pyMaxKey]
  | cons y ys ih =>
    have h := ih (if f e < f y then y else e)
    simp only [pyMaxKey, List.foldl_cons] at h ⊢
    rcases List.mem_cons.1 h with hh | hh
    · rw [hh]
      split
      · exact List.mem_cons_of_mem _ (List.mem_cons_self _ _)
      · exact List.mem_cons_self _ _
    · exact List.mem_cons_of_mem _ (List.mem_cons_of_mem _ hh)

theorem lockedSecretCount_keys (s : SimState) :
    lockedSecretCount s = (s.cardsPerSource.map Prod.fst).countP
      (fun k => !k.is_normal_pack && decide (k ∉ s.packsUnlocked)) := by
  unfold lockedSecretCount
  rw [List.countP_map]
  rfl

theorem setAdd_eq_append {α : Type} [DecidableEq α] {l : List α} {a : α}
    (h : a ∉ l) : setAdd l a = l ++ [a] := by
  unfold setAdd
  rw [if_neg h]

theorem lockedSecretCount_unlock_lt (s : SimState) (src : Pack)
    (hmem : src ∈ s.cardsPerSource.map Prod.fst)
    (hsec : src.is_normal_pack = false) (hnl : src ∉ s.packsUnlocked) :
    lockedSecretCount
      { craftUnlock s src with
          packsUnlocked := setAdd (craftUnlock s src).packsUnlocked src } <
      lockedSecretCount s := by
  have hcu := craftUnlock_fields s src
  rw [lockedSecretCount_keys, lockedSecretCount_keys]
  show ((craftUnlock s src).cardsPerSource.map Prod.fst).countP
      (fun k => !k.is_normal_pack &&
        decide (k ∉ setAdd (craftUnlock s src).packsUnlocked src)) <
    (s.cardsPerSource.map Prod.fst).countP
      (fun k => !k.is_normal_pack && decide (k ∉ s.packsUnlocked))
  rw [hcu.2.2]
  simp only [setAdd_eq_append hnl]
  have himp : ∀ k : Pack,
      (!k.is_normal_pack && decide (k ∉ s.packsUnlocked ++ [src])) = true →
      (!k.is_normal_pack && decide (k ∉ s.packsUnlocked)) = true := by
    intro k hk
    simp only [Bool.and_eq_true, decide_eq_true_eq] at hk ⊢
    exact ⟨hk.1, fun hm => hk.2 (List.mem_append_left _ hm)⟩
  have hpa : (!src.is_normal_pack && decide (src ∉ s.packsUnlocked)) = true := by
    simp [hsec, hnl]
  have hqa : (!src.is_normal_pack &&
      decide (src ∉ s.packsUnlocked ++ [src])) = false := by
    simp [List.mem_append]
  have h1 := (craftUnlock_keys_sublist s src).countP_le
    (fun k => !k.is_normal_pack && decide (k ∉ s.packsUnlocked ++ [src]))
  have h2 := countP_lt_of_witness (s.cardsPerSource.map Prod.fst)
    (fun k => !k.is_normal_pack && decide (k ∉ s.packsUnlocked))
    (fun k => !k.is_normal_pack && decide (k ∉ s.packsUnlocked ++ [src]))
    himp hmem hpa hqa
  omega

theorem simStep_cases (ctx : Ctx) (i : Nat) (s : SimState) (h : s.mustBuy = []) :
    ((simStep ctx i s).1.mustBuy = [] ∧
      (simStep ctx i s).1.cost = s.cost + 1000) ∨
    ((simStep ctx i s).1.mustBuy = [] ∧ (simStep ctx i s).2 = false ∧
      (simStep ctx i s).1.cost = s.cost ∧
      lockedSecretCount (simStep ctx i s).1 < lockedSecretCount s) := by
  simp only [simStep, h, List.getLast?_nil]
  split
  · left
    constructor
    · rw [(pullPhase_fields ctx i _ _).2.1]
    · rw [(pullPhase_fields ctx i _ _).1]
  · next e es hcps =>
    split
    · next hlock =>
      right
      have hcu := craftUnlock_fields s (pyMaxKey (expectedReturn ctx (e :: es))
        e.1 (es.map Prod.fst))
      refine ⟨hcu.2.1.trans h, rfl, hcu.1, ?_⟩
      apply lockedSecretCount_unlock_lt s _ ?_ hlock.1 hlock.2
      rw [hcps]
      exact pyMaxKey_mem _ _ _
    · left
      constructor
      · rw [(pullPhase_fields ctx i _ _).2.1]
      · rw [(pullPhase_fields ctx i _ _).1]

theorem simStep_mustBuy_nil (ctx : Ctx) (i : Nat) (s : SimState)
    (h : s.mustBuy = []) : (simStep ctx i s).1.mustBuy = [] := by
  rcases simStep_cases ctx i s h with ⟨h1, _⟩ | ⟨h1, _, _, _⟩ <;> exact h1

theorem simLoop_cost_mono (ctx : Ctx) (fuel : Nat) (s : SimState)
    (h : s.mustBuy = []) : s.cost ≤ (simLoop ctx fuel s).1.cost := by
  induction fuel generalizing s with
  | zero => simp [simLoop]
  | succ n ih =>
    simp only [simLoop]
    rcases simStep_cases ctx (n + 1) s h with ⟨hmb, hc⟩ | ⟨hmb, hf, hc, _⟩
    · split
      · show s.cost ≤ (simStep ctx (n + 1) s).1.cost
        omega
      · have h2 := ih (simStep ctx (n + 1) s).1 hmb
        omega
    · split
      · show s.cost ≤ (simStep ctx (n + 1) s).1.cost
        omega
      · have h2 := ih (simStep ctx (n + 1) s).1 hmb
        omega

theorem simLoop_dichotomy (ctx : Ctx) (fuel : Nat) (s : SimState)
    (h : s.mustBuy = []) :
    s.cost + 1000 ≤ (simLoop ctx fuel s).1.cost ∨
    ((simLoop ctx fuel s).1.cost = s.cost ∧ fuel ≤ lockedSecretCount s) := by
  induction fuel generalizing s with
  | zero =>
    right
    exact ⟨by simp [simLoop], Nat.zero_le _⟩
  | succ n ih =>
    simp only [simLoop]
    rcases simStep_cases ctx (n + 1) s h with ⟨hmb, hc⟩ | ⟨hmb, hf, hc, hlt⟩
    · left
      split
      · show s.cost + 1000 ≤ (simStep ctx (n + 1) s).1.cost
        omega
      · have h2 := simLoop_cost_mono ctx n (simStep ctx (n + 1) s).1 hmb
        omega
    · rw [hf]
      simp only [Bool.false_eq_true, if_false]
      rcases ih (simStep ctx (n + 1) s).1 hmb with hl | ⟨he, hm⟩
      · left
        omega
      · right
        constructor
        · omega
        · omega

theorem computeMustBuy_nil (goals : List Card) : computeMustBuy goals [] = [] := by
  unfold computeMustBuy
  induction goals with
  | nil => rfl
  | cons g gs ih =>
    rw [List.foldl_cons]
    exact ih

/-! ### Claim C5 -/

/-- The per-run state a `simulation` call with all-default optional
arguments starts its main loop from. -/
def defaultInit (env : Env) (goals : List Card) : SimState :=
  initState ⟨env, fun _ => none, false, false⟩ goals [] Mats.zero [] [] false
    none none

/-- Claim C5: for a non-empty goal list and default optional arguments,
the returned cost is strictly positive.  The catalog hypothesis `hcat`
(fewer than 50 still-locked secret-pack entries in the initial per-source
index, amply true of the real catalog against the 50-iteration cap) rules
out the degenerate schedule in which all 50 iterations are
unlock-by-crafting iterations. -/
theorem c5_positive_cost (env : Env) (goals : List Card) (_hne : goals ≠ [])
    (hcat : lockedSecretCount (defaultInit env goals) < 50) :
    0 < (simulation env goals none none none none false (fun _ => none) none
      none false false).1 := by
  have hmb : (defaultInit env goals).mustBuy = [] := computeMustBuy_nil _
  have hd := simLoop_dichotomy ⟨env, fun _ => none, false, false⟩ 50
    (defaultInit env goals) hmb
  have hc0 : (defaultInit env goals).cost = 0 := rfl
  rcases hd with hl | ⟨_, hm⟩
  · show 0 < (simLoop ⟨env, fun _ => none, false, false⟩ 50
      (defaultInit env goals)).1.cost
    omega
  · omega

/-- Witness for `c5_positive_cost` at a one-card goal list over `env0`. -/
theorem c5_positive_cost_witness :
    ([cardU] ≠ ([] : List Card)) ∧
    lockedSecretCount (defaultInit env0 [cardU]) < 50 ∧
    0 < (simulation env0 [cardU] none none none none false (fun _ => none)
      none none false false).1 := by
  refine ⟨by decide, by decide, ?_⟩
  exact c5_positive_cost env0 [cardU] (by decide) (by decide)


/-- Modelled from the spec: pull results carry non-negative base materials
and non-negative dismantle (finish) values. -/
def OracleNonneg (oracle : Nat → Pack → Nat → Pull) : Prop :=
  ∀ i p n, (oracle i p n).materials.nonneg = true ∧
    ∀ v ∈ (oracle i p n).finishes, 0 ≤ v

theorem processCard_empty (ctx : Ctx) (a : SimState × Mats) (pr : Card × Int)
    (hg : a.1.goals = []) (hs : a.1.subGoals = []) :
    (processCard ctx a pr).1.goals = [] ∧
    (processCard ctx a pr).1.subGoals = [] ∧
    (processCard ctx a pr).2 = a.2.add pr.1.rarity pr.2 := by
  have hng : pr.1 ∉ a.1.goals := by
    rw [hg]
    exact List.not_mem_nil _
  have hns : pr.1 ∉ a.1.subGoals := by
    rw [hs]
    exact List.not_mem_nil _
  simp only [processCard, removeCardFromGoals_neg _ hng,
    removeCardFromGoals_neg _ hns, Bool.false_eq_true, if_false]
  refine ⟨?_, ?_, ?_⟩ <;> first | exact hg | exact hs | rfl | trivial

theorem foldl_processCard_empty (ctx : Ctx) (prs : List (Card × Int))
    (a : SimState × Mats) (hg : a.1.goals = []) (hs : a.1.subGoals = [])
    (hfin : ∀ pr ∈ prs, 0 ≤ pr.2) (hm : a.2.nonneg = true) :
    (prs.foldl (processCard ctx) a).1.goals = [] ∧
    (prs.foldl (processCard ctx) a).1.subGoals = [] ∧
    (prs.foldl (processCard ctx) a).2.nonneg = true := by
  induction prs generalizing a with
  | nil => exact ⟨hg, hs, hm⟩
  | cons pr prs ih =>
    rw [List.foldl_cons]
    obtain ⟨e1, e2, e3⟩ := processCard_empty ctx a pr hg hs
    refine ih (processCard ctx a pr) e1 e2
      (fun x hx => hfin x (List.mem_cons_of_mem _ hx)) ?_
    rw [e3]
    exact Mats.nonneg_add hm (hfin pr (List.mem_cons_self _ _))

theorem foldl_processCard_materials (ctx : Ctx) (prs : List (Card × Int))
    (a : SimState × Mats) :
    (prs.foldl (processCard ctx) a).1.materials = a.1.materials := by
  induction prs generalizing a with
  | nil => rfl
  | cons pr prs ih =>
    rw [List.foldl_cons]
    rw [ih (processCard ctx a pr)]
    exact (processCard_fields ctx a pr).2.2.2

theorem pullPhase_break (ctx : Ctx) (i : Nat) (p : Pack) (s : SimState)
    (hg : s.goals = []) (hs : s.subGoals = []) (hm : s.materials.nonneg = true)
    (hnc : ctx.noCrafting = false) (hor : OracleNonneg ctx.oracle) :
    (pullPhase ctx i p s).2 = true ∧ (pullPhase ctx i p s).1.cost = s.cost := by
  obtain ⟨hpm, hpf⟩ := hor i p ((alookup s.perPackPity p).getD 0)
  simp only [pullPhase]
  set pull := ctx.oracle i p ((alookup s.perPackPity p).getD 0) with hpull
  have hfin : ∀ pr ∈ pull.cards.zip pull.finishes, 0 ≤ pr.2 := by
    intro pr hpr
    exact hpf pr.2 (List.of_mem_zip hpr).2
  have hfold := foldl_processCard_empty ctx (pull.cards.zip pull.finishes)
    ({ s with perPackPity := alistSet s.perPackPity p pull.pity },
      pull.materials) hg hs hfin hpm
  have hmats := foldl_processCard_materials ctx (pull.cards.zip pull.finishes)
    ({ s with perPackPity := alistSet s.perPackPity p pull.pity },
      pull.materials)
  have hcost := foldl_processCard_fields ctx (pull.cards.zip pull.finishes)
    ({ s with perPackPity := alistSet s.perPackPity p pull.pity },
      pull.materials)
  split
  · split
    · next hck =>
      rw [hnc] at hck
      simp at hck
    · exact ⟨rfl, hcost.1.1⟩
  · next hrem =>
    exfalso
    apply hrem
    rw [hfold.1]
    show (((pull.cards.zip pull.finishes).foldl (processCard ctx)
        ({ s with perPackPity := alistSet s.perPackPity p pull.pity },
          pull.materials)).1.materials.addAll
      ((pull.cards.zip pull.finishes).foldl (processCard ctx)
        ({ s with perPackPity := alistSet s.perPackPity p pull.pity },
          pull.materials)).2).nonneg = true
    rw [hmats]
    exact Mats.nonneg_addAll hm hfold.2.2

theorem simLoop_succ_break (ctx : Ctx) (n : Nat) (s : SimState)
    (hb : (simStep ctx (n + 1) s).2 = true) :
    simLoop ctx (n + 1) s = ((simStep ctx (n + 1) s).1, true) := by
  simp only [simLoop, hb, if_true]

/-- Claim C10: when the goal list is empty or becomes empty after gift
removal, with no bundles and no starting materials, the first iteration
already charges one 1000-gem Master Pack draw, so the returned cost is at
least 1000; and when every draw only adds non-negative materials the
completion check passes right after that first draw, so the cost is exactly
1000. -/
theorem c10_empty_goals_master_pull (env : Env) (goals : List Card)
    (gifts : Option (List Card)) (hempty : removeGifts goals gifts = []) :
    1000 ≤ (simulation env goals none none none none false (fun _ => none)
      gifts none false false).1 ∧
    (OracleNonneg env.oracle →
      (simulation env goals none none none none false (fun _ => none) gifts
        none false false).1 = 1000) := by
  have hinit : initState ⟨env, fun _ => none, false, false⟩ goals []
      (Mats.ofAList []) [] [] false gifts none =
      (⟨[], [], Mats.zero, [], [], [], [], 0⟩ : SimState) := by
    simp only [initState, hempty]
    rfl
  constructor
  · have hd := simLoop_dichotomy ⟨env, fun _ => none, false, false⟩ 50
      (⟨[], [], Mats.zero, [], [], [], [], 0⟩ : SimState) rfl
    show 1000 ≤ (simLoop ⟨env, fun _ => none, false, false⟩ 50
      (initState ⟨env, fun _ => none, false, false⟩ goals [] (Mats.ofAList [])
        [] [] false gifts none)).1.cost
    rw [hinit]
    have hc : ((⟨[], [], Mats.zero, [], [], [], [], 0⟩ : SimState)).cost = 0 := rfl
    have hlk : lockedSecretCount (⟨[], [], Mats.zero, [], [], [], [], 0⟩ : SimState) = 0 := rfl
    rcases hd with hl | ⟨_, hm⟩
    · omega
    · omega
  · intro hor
    have hstep : simStep ⟨env, fun _ => none, false, false⟩ 50
        (⟨[], [], Mats.zero, [], [], [], [], 0⟩ : SimState) =
        pullPhase ⟨env, fun _ => none, false, false⟩ 50 env.masterPack
          (⟨[], [], Mats.zero, [], [], [], [], 0 + 1000⟩ : SimState) := rfl
    have hb := pullPhase_break ⟨env, fun _ => none, false, false⟩ 50
      env.masterPack (⟨[], [], Mats.zero, [], [], [], [], 0 + 1000⟩ : SimState)
      rfl rfl rfl rfl hor
    show (simLoop ⟨env, fun _ => none, false, false⟩ (49 + 1)
      (initState ⟨env, fun _ => none, false, false⟩ goals [] (Mats.ofAList [])
        [] [] false gifts none)).1.cost = 1000
    rw [hinit]
    have hb2 : (simStep ⟨env, fun _ => none, false, false⟩ (49 + 1)
        (⟨[], [], Mats.zero, [], [], [], [], 0⟩ : SimState)).2 = true := by
      rw [show (49 : Nat) + 1 = 50 from rfl, hstep]
      exact hb.1
    rw [simLoop_succ_break _ 49 _ hb2]
    show (simStep ⟨env, fun _ => none, false, false⟩ (49 + 1)
      (⟨[], [], Mats.zero, [], [], [], [], 0⟩ : SimState)).1.cost = 1000
    rw [show (49 : Nat) + 1 = 50 from rfl, hstep, hb.2]
    decide

/-- Witness for `c10_empty_goals_master_pull` at the empty goal list over
`env0`. -/
theorem c10_empty_goals_master_pull_witness :
    removeGifts ([] : List Card) none = [] ∧ OracleNonneg env0.oracle ∧
    1000 ≤ (simulation env0 [] none none none none false (fun _ => none) none
      none false false).1 ∧
    (simulation env0 [] none none none none false (fun _ => none) none none
      false false).1 = 1000 := by
  have hor : OracleNonneg env0.oracle := by
    intro i p n
    refine ⟨?_, ?_⟩
    · show junkPull.materials.nonneg = true
      decide
    · show ∀ v ∈ junkPull.finishes, 0 ≤ v
      decide
  refine ⟨rfl, hor, ?_, ?_⟩
  · exact (c10_empty_goals_master_pull env0 [] none rfl).1
  · exact (c10_empty_goals_master_pull env0 [] none rfl).2 hor

/-! ### Further helper lemmas for claims C4 and C10 -/

theorem removeGifts_singleton_nogift (X : Card) (h : X.gift = 0) :
    removeGifts [X] none = [X] := by
  unfold removeGifts
  rw [show ([X] : List Card).dedup = [X] from by
    rw [List.dedup_cons_of_not_mem (List.not_mem_nil X), List.dedup_nil]]
  rw [List.foldl_cons, List.foldl_nil]
  show eraseN [X] X (min (countOcc [X] X) X.gift) = [X]
  rw [h, Nat.min_zero]
  rfl

theorem computeMustBuy_singleton (X : Card) (B : Bundle)
    (hX : X ∈ B.featured_cards) : computeMustBuy [X] [B] = [B] := by
  unfold computeMustBuy
  rw [List.foldl_cons, List.foldl_nil, List.foldl_cons, List.foldl_nil]
  rw [if_pos ⟨hX, List.not_mem_nil B⟩]
  rfl

theorem foldl_processFeatured_empty (fs : List Card) (t : SimState)
    (hg : t.goals = []) (hs : t.subGoals = []) :
    (fs.foldl processFeatured t).goals = [] ∧
    (fs.foldl processFeatured t).subGoals = [] ∧
    t.materials.le (fs.foldl processFeatured t).materials := by
  induction fs generalizing t with
  | nil => exact ⟨hg, hs, Mats.le_refl _⟩
  | cons f fs ih =>
    rw [List.foldl_cons]
    have hnf : f ∉ t.goals := by
      rw [hg]
      exact List.not_mem_nil _
    have hnsf : f ∉ t.subGoals := by
      rw [hs]
      exact List.not_mem_nil _
    obtain ⟨e1, e2, e3⟩ := processFeatured_of_mem_neither hnf hnsf
    obtain ⟨g1, g2, g3⟩ := ih (processFeatured t f) (e1.trans hg) (e2.trans hs)
    refine ⟨g1, g2, Mats.le_trans ?_ g3⟩
    rw [e3]
    exact t.materials.le_add_of_nonneg f.rarity (by omega)

theorem foldl_processFeatured_single (fs : List Card) (X : Card) (t : SimState)
    (hX : X ∈ fs) (hg : t.goals = [X]) (hs : t.subGoals = []) :
    (fs.foldl processFeatured t).goals = [] ∧
    (fs.foldl processFeatured t).subGoals = [] ∧
    t.materials.le (fs.foldl processFeatured t).materials := by
  induction fs generalizing t with
  | nil => simp at hX
  | cons f fs ih =>
    rw [List.foldl_cons]
    by_cases hfX : f = X
    · subst hfX
      have hmem : f ∈ t.goals := by
        rw [hg]
        exact List.mem_cons_self _ _
      obtain ⟨e1, e2, e3⟩ := processFeatured_of_mem_goals hmem
      have hg2 : (processFeatured t f).goals = [] := by
        rw [e1, hg]
        show (if f = f then ([] : List Card) else f :: eraseFirst [] f) = []
        rw [if_pos rfl]
      obtain ⟨g1, g2, g3⟩ := foldl_processFeatured_empty fs _ hg2 (e2.trans hs)
      rw [e3] at g3
      exact ⟨g1, g2, g3⟩
    · have hnf : f ∉ t.goals := by
        rw [hg]
        intro hmem
        rcases List.mem_cons.1 hmem with hh | hh
        · exact hfX hh
        · exact absurd hh (List.not_mem_nil _)
      have hnsf : f ∉ t.subGoals := by
        rw [hs]
        exact List.not_mem_nil _
      obtain ⟨e1, e2, e3⟩ := processFeatured_of_mem_neither hnf hnsf
      have hXfs : X ∈ fs := by
        rcases List.mem_cons.1 hX with hh | hh
        · exact absurd hh.symm hfX
        · exact hh
      obtain ⟨g1, g2, g3⟩ := ih _ hXfs (e1.trans hg) (e2.trans hs)
      refine ⟨g1, g2, Mats.le_trans ?_ g3⟩
      rw [e3]
      exact t.materials.le_add_of_nonneg f.rarity (by omega)

/-! ### Claim C4 -/

/-- Claim C4: when `B` features the goal card `X`, `X` has gift count 0 and
no other goals are present, `simulation([X])` with `bundles = {B}` costs
exactly `B.cost`, and the same call without bundles costs at least the fixed
1000-gem pull price.  `hor` is the pack-draw contract (non-negative
materials and dismantle values); `hcat` is the catalog finiteness
hypothesis also used for C5. -/
theorem c4_bundle_exact_cost (env : Env) (B : Bundle) (X : Card)
    (hX : X ∈ B.featured_cards) (hgift : X.gift = 0)
    (hor : OracleNonneg env.oracle)
    (hcat : lockedSecretCount (defaultInit env [X]) < 50) :
    (simulation env [X] none none none (some [B]) false (fun _ => none) none
      none false false).1 = B.cost ∧
    1000 ≤ (simulation env [X] none none none none false (fun _ => none) none
      none false false).1 := by
  constructor
  · have hg1 : (initState ⟨env, fun _ => none, false, false⟩ [X] []
        (Mats.ofAList []) [] [B] false none none).goals = [X] :=
      removeGifts_singleton_nogift X hgift
    have hmb1 : (initState ⟨env, fun _ => none, false, false⟩ [X] []
        (Mats.ofAList []) [] [B] false none none).mustBuy = [] ++ [B] := by
      show computeMustBuy (removeGifts [X] none) [B] = [] ++ [B]
      rw [removeGifts_singleton_nogift X hgift, computeMustBuy_singleton X B hX]
      rfl
    have hex : ∃ f ∈ B.featured_cards,
        f ∈ (initState ⟨env, fun _ => none, false, false⟩ [X] []
          (Mats.ofAList []) [] [B] false none none).goals := by
      refine ⟨X, hX, ?_⟩
      rw [hg1]
      exact List.mem_cons_self _ _
    have hstep := simStep_bundle_buy ⟨env, fun _ => none, false, false⟩ 50
      (initState ⟨env, fun _ => none, false, false⟩ [X] [] (Mats.ofAList [])
        [] [B] false none none) [] B hmb1 hex
    have hgoals1 : ({ initState ⟨env, fun _ => none, false, false⟩ [X] []
        (Mats.ofAList []) [] [B] false none none with
          mustBuy := ([] : List Bundle) }).goals = [X] := hg1
    have hfold := foldl_processFeatured_single B.featured_cards X
      { initState ⟨env, fun _ => none, false, false⟩ [X] [] (Mats.ofAList [])
          [] [B] false none none with mustBuy := ([] : List Bundle) }
      hX hgoals1 rfl
    have hb := pullPhase_break ⟨env, fun _ => none, false, false⟩ 50
      B.featured_pack
      { B.featured_cards.foldl processFeatured
          { initState ⟨env, fun _ => none, false, false⟩ [X] []
              (Mats.ofAList []) [] [B] false none none with
            mustBuy := ([] : List Bundle) } with
        cost := (initState ⟨env, fun _ => none, false, false⟩ [X] []
          (Mats.ofAList []) [] [B] false none none).cost + B.cost }
      hfold.1 hfold.2.1 ((Mats.nonneg_iff_zero_le _).mpr hfold.2.2) rfl hor
    show (simLoop ⟨env, fun _ => none, false, false⟩ (49 + 1)
      (initState ⟨env, fun _ => none, false, false⟩ [X] [] (Mats.ofAList [])
        [] [B] false none none)).1.cost = B.cost
    have hb2 : (simStep ⟨env, fun _ => none, false, false⟩ (49 + 1)
        (initState ⟨env, fun _ => none, false, false⟩ [X] [] (Mats.ofAList [])
          [] [B] false none none)).2 = true := by
      rw [show (49 : Nat) + 1 = 50 from rfl, hstep]
      exact hb.1
    rw [simLoop_succ_break _ 49 _ hb2]
    show (simStep ⟨env, fun _ => none, false, false⟩ (49 + 1)
      (initState ⟨env, fun _ => none, false, false⟩ [X] [] (Mats.ofAList [])
        [] [B] false none none)).1.cost = B.cost
    rw [show (49 : Nat) + 1 = 50 from rfl, hstep, hb.2]
    show (0 : Int) + B.cost = B.cost
    omega
  · have hmb : (defaultInit env [X]).mustBuy = [] := computeMustBuy_nil _
    have hd := simLoop_dichotomy ⟨env, fun _ => none, false, false⟩ 50
      (defaultInit env [X]) hmb
    have hc0 : (defaultInit env [X]).cost = 0 := rfl
    show 1000 ≤ (simLoop ⟨env, fun _ => none, false, false⟩ 50
      (defaultInit env [X])).1.cost
    rcases hd with hl | ⟨_, hm⟩
    · omega
    · omega

/-- A bundle uniquely featuring `cardU`, for the C4 witness. -/
def bundle4 : Bundle := ⟨"Unique Bundle", 750, junkPack, [cardU]⟩

/-- Witness for `c4_bundle_exact_cost`: over `env0`, the bundled run costs
exactly 750 and the bundle-less run costs at least 1000. -/
theorem c4_bundle_exact_cost_witness :
    (cardU ∈ bundle4.featured_cards ∧ cardU.gift = 0 ∧
      OracleNonneg env0.oracle ∧
      lockedSecretCount (defaultInit env0 [cardU]) < 50) ∧
    (simulation env0 [cardU] none none none (some [bundle4]) false
      (fun _ => none) none none false false).1 = bundle4.cost ∧
    1000 ≤ (simulation env0 [cardU] none none none none false (fun _ => none)
      none none false false).1 := by
  have hor : OracleNonneg env0.oracle := by
    intro i p n
    refine ⟨?_, ?_⟩
    · show junkPull.materials.nonneg = true
      decide
    · show ∀ v ∈ junkPull.finishes, 0 ≤ v
      decide
  refine ⟨⟨by decide, by decide, hor, by decide⟩, ?_, ?_⟩
  · exact (c4_bundle_exact_cost env0 bundle4 cardU (by decide) (by decide) hor
      (by decide)).1
  · exact (c4_bundle_exact_cost env0 bundle4 cardU (by decide) (by decide) hor
      (by decide)).2

/-! ### Claim C7 -/

/-- The condition under which `names_to_decklist` (with fuzzy matching
enabled, `full_match = False`) rejects an entry: the entry is non-empty,
its count-stripped name has no exact case-insensitive catalog match, and the
fuzzy matcher returns zero or more than one candidate. -/
def failsResolution (available : List (String × Card))
    (close : String → List String → List String) (n : String) : Prop :=
  n ≠ "" ∧ alookup available (parseCount n).2.toLower = none ∧
    (close (parseCount n).2.toLower (available.map Prod.fst)).length ≠ 1

theorem failsResolution_def (available : List (String × Card))
    (close : String → List String → List String) (n : String) :
    failsResolution available close n ↔
      (n ≠ "" ∧ alookup available (parseCount n).2.toLower = none ∧
        (close (parseCount n).2.toLower (available.map Prod.fst)).length ≠ 1) :=
  Iff.rfl

theorem namesToDecklistAux_error_iff (available : List (String × Card))
    (close : String → List String → List String)
    (hclose : ∀ w, ∀ m ∈ close w (available.map Prod.fst),
      m ∈ available.map Prod.fst)
    (names : List String) (goals : List Card)
    (transl : List (String × String)) :
    (∃ e, namesToDecklistAux available close false names goals transl =
      Except.error e) ↔
    ∃ n ∈ names, failsResolution available close n := by
  induction names generalizing goals transl with
  | nil => simp [namesToDecklistAux]
  | cons n rest ih =>
    by_cases hn : n = ""
    · subst hn
      have hstep : namesToDecklistAux available close false ("" :: rest) goals
          transl = namesToDecklistAux available close false rest goals transl := by
        simp [namesToDecklistAux]
      rw [hstep, ih goals transl]
      constructor
      · rintro ⟨x, hx, hbad⟩
        exact ⟨x, List.mem_cons_of_mem _ hx, hbad⟩
      · rintro ⟨x, hx, hbad⟩
        rcases List.mem_cons.1 hx with rfl | hx2
        · exact absurd rfl hbad.1
        · exact ⟨x, hx2, hbad⟩
    · cases hl : alookup available (parseCount n).2.toLower with
      | some card =>
        have hstep : namesToDecklistAux available close false (n :: rest) goals
            transl = namesToDecklistAux available close false rest
              (goals ++ List.replicate (parseCount n).1 card) transl := by
          simp only [namesToDecklistAux]
          rw [if_neg hn, hl]
        rw [hstep, ih _ _]
        constructor
        · rintro ⟨x, hx, hbad⟩
          exact ⟨x, List.mem_cons_of_mem _ hx, hbad⟩
        · rintro ⟨x, hx, hbad⟩
          rcases List.mem_cons.1 hx with rfl | hx2
          · obtain ⟨_, h2, _⟩ := (failsResolution_def available close x).1 hbad
            rw [hl] at h2
            exact Option.noConfusion h2
          · exact ⟨x, hx2, hbad⟩
      | none =>
        cases hm : close (parseCount n).2.toLower (available.map Prod.fst) with
        | nil =>
          have hstep : namesToDecklistAux available close false (n :: rest)
              goals transl = Except.error (DeckErr.notFound (parseCount n).2) := by
            simp only [namesToDecklistAux]
            rw [if_neg hn, hl, hm]
          rw [hstep]
          constructor
          · intro _
            refine ⟨n, List.mem_cons_self _ _,
              (failsResolution_def available close n).2 ⟨hn, hl, ?_⟩⟩
            rw [hm]
            simp
          · intro _
            exact ⟨DeckErr.notFound (parseCount n).2, rfl⟩
        | cons m ms =>
          cases ms with
          | nil =>
            have hmem : m ∈ available.map Prod.fst := by
              apply hclose (parseCount n).2.toLower
              rw [hm]
              exact List.mem_cons_self _ _
            obtain ⟨tc, htc⟩ := Option.isSome_iff_exists.1
              (alookup_isSome_of_mem_keys hmem)
            have hstep : namesToDecklistAux available close false (n :: rest)
                goals transl = namesToDecklistAux available close false rest
                  (goals ++ List.replicate (parseCount n).1 tc)
                  (alistSet transl (parseCount n).2 tc.name) := by
              simp only [namesToDecklistAux]
              rw [if_neg hn, hl, hm]
              simp [htc]
            rw [hstep, ih _ _]
            constructor
            · rintro ⟨x, hx, hbad⟩
              exact ⟨x, List.mem_cons_of_mem _ hx, hbad⟩
            · rintro ⟨x, hx, hbad⟩
              rcases List.mem_cons.1 hx with rfl | hx2
              · obtain ⟨_, _, h3⟩ := (failsResolution_def available close x).1 hbad
                rw [hm] at h3
                exact absurd rfl h3
              · exact ⟨x, hx2, hbad⟩
          | cons m2 ms2 =>
            have hstep : namesToDecklistAux available close false (n :: rest)
                goals transl = Except.error
                  (DeckErr.ambiguous (parseCount n).2 (m :: m2 :: ms2)) := by
              simp only [namesToDecklistAux]
              rw [if_neg hn, hl, hm]
            rw [hstep]
            constructor
            · intro _
              refine ⟨n, List.mem_cons_self _ _,
                (failsResolution_def available close n).2 ⟨hn, hl, ?_⟩⟩
              rw [hm]
              simp
            · intro _
              exact ⟨DeckErr.ambiguous (parseCount n).2 (m :: m2 :: ms2), rfl⟩

theorem namesToDecklistAux_error_context (available : List (String × Card))
    (close : String → List String → List String)
    (hclose : ∀ w, ∀ m ∈ close w (available.map Prod.fst),
      m ∈ available.map Prod.fst)
    (names : List String) (goals : List Card) (transl : List (String × String))
    (e : DeckErr)
    (he : namesToDecklistAux available close false names goals transl =
      Except.error e) :
    ∃ n ∈ names,
      (e = DeckErr.notFound (parseCount n).2 ∧
        close (parseCount n).2.toLower (available.map Prod.fst) = []) ∨
      (e = DeckErr.ambiguous (parseCount n).2
          (close (parseCount n).2.toLower (available.map Prod.fst)) ∧
        2 ≤ (close (parseCount n).2.toLower (available.map Prod.fst)).length) := by
  induction names generalizing goals transl with
  | nil => simp [namesToDecklistAux] at he
  | cons n rest ih =>
    by_cases hn : n = ""
    · subst hn
      have hstep : namesToDecklistAux available close false ("" :: rest) goals
          transl = namesToDecklistAux available close false rest goals transl := by
        simp [namesToDecklistAux]
      rw [hstep] at he
      obtain ⟨x, hx, hcase⟩ := ih goals transl he
      exact ⟨x, List.mem_cons_of_mem _ hx, hcase⟩
    · cases hl : alookup available (parseCount n).2.toLower with
      | some card =>
        have hstep : namesToDecklistAux available close false (n :: rest) goals
            transl = namesToDecklistAux available close false rest
              (goals ++ List.replicate (parseCount n).1 card) transl := by
          simp only [namesToDecklistAux]
          rw [if_neg hn, hl]
        rw [hstep] at he
        obtain ⟨x, hx, hcase⟩ := ih _ _ he
        exact ⟨x, List.mem_cons_of_mem _ hx, hcase⟩
      | none =>
        cases hm : close (parseCount n).2.toLower (available.map Prod.fst) with
        | nil =>
          have hstep : namesToDecklistAux available close false (n :: rest)
              goals transl = Except.error (DeckErr.notFound (parseCount n).2) := by
            simp only [namesToDecklistAux]
            rw [if_neg hn, hl, hm]
          rw [hstep] at he
          refine ⟨n, List.mem_cons_self _ _, Or.inl ⟨?_, hm⟩⟩
          exact (Except.error.inj he).symm
        | cons m ms =>
          cases ms with
          | nil =>
            have hmem : m ∈ available.map Prod.fst := by
              apply hclose (parseCount n).2.toLower
              rw [hm]
              exact List.mem_cons_self _ _
            obtain ⟨tc, htc⟩ := Option.isSome_iff_exists.1
              (alookup_isSome_of_mem_keys hmem)
            have hstep : namesToDecklistAux available close false (n :: rest)
                goals transl = namesToDecklistAux available close false rest
                  (goals ++ List.replicate (parseCount n).1 tc)
                  (alistSet transl (parseCount n).2 tc.name) := by
              simp only [namesToDecklistAux]
              rw [if_neg hn, hl, hm]
              simp [htc]
            rw [hstep] at he
            obtain ⟨x, hx, hcase⟩ := ih _ _ he
            exact ⟨x, List.mem_cons_of_mem _ hx, hcase⟩
          | cons m2 ms2 =>
            have hstep : namesToDecklistAux available close false (n :: rest)
                goals transl = Except.error
                  (DeckErr.ambiguous (parseCount n).2 (m :: m2 :: ms2)) := by
              simp only [namesToDecklistAux]
              rw [if_neg hn, hl, hm]
            rw [hstep] at he
            refine ⟨n, List.mem_cons_self _ _, Or.inr ⟨?_, ?_⟩⟩
            · rw [hm]
              exact (Except.error.inj he).symm
            · rw [hm]
              simp

/-- Claim C7: a `names_to_decklist` call (with fuzzy matching enabled, the
default) raises an input error exactly when some listed name is non-empty,
has no exact case-insensitive catalog match, and the fuzzy matcher returns
zero or more than one close candidate; and every raised error carries the
count-stripped candidate name, together with the ambiguous candidate list
when more than one close match exists — it never silently picks one of
several close matches.  `hclose` is the matcher contract that candidates
are drawn from the supplied possibilities (difflib's documented
behaviour). -/
theorem c7_name_resolution_errors (cards : List Card)
    (close : String → List String → List String) (names : List String)
    (hclose : ∀ w ks, ∀ m ∈ close w ks, m ∈ ks) :
    ((∃ e, namesToDecklist cards close names false = Except.error e) ↔
      ∃ n ∈ names, failsResolution (buildAvailable cards) close n) ∧
    (∀ e, namesToDecklist cards close names false = Except.error e →
      ∃ n ∈ names,
        (e = DeckErr.notFound (parseCount n).2 ∧
          close (parseCount n).2.toLower
            ((buildAvailable cards).map Prod.fst) = []) ∨
        (e = DeckErr.ambiguous (parseCount n).2
            (close (parseCount n).2.toLower
              ((buildAvailable cards).map Prod.fst)) ∧
          2 ≤ (close (parseCount n).2.toLower
            ((buildAvailable cards).map Prod.fst)).length)) := by
  constructor
  · exact namesToDecklistAux_error_iff (buildAvailable cards) close
      (fun w m hm => hclose w _ m hm) names [] []
  · intro e he
    exact namesToDecklistAux_error_context (buildAvailable cards) close
      (fun w m hm => hclose w _ m hm) names [] [] e he

/-- A fuzzy matcher that never finds candidates, for the C7 witness. -/
def close0 : String → List String → List String := fun _ _ => []

/-- Witness for `c7_name_resolution_errors` on a one-card catalog and an
unresolvable name. -/
theorem c7_name_resolution_errors_witness :
    (∀ w ks, ∀ m ∈ close0 w ks, m ∈ ks) ∧
    ((∃ e, namesToDecklist [cardU] close0 ["nonexistent card"] false =
      Except.error e) ↔
      ∃ n ∈ ["nonexistent card"],
        failsResolution (buildAvailable [cardU]) close0 n) := by
  have hc : ∀ w ks, ∀ m ∈ close0 w ks, m ∈ ks := by
    intro w ks m hm
    simp [close0] at hm
  exact ⟨hc,
    (c7_name_resolution_errors [cardU] close0 ["nonexistent card"] hc).1⟩


/-! ### Claim C9 -/

/-- Claim C9: `simulation` never mutates its caller-supplied collections.
In the heap-level rendering, the goal list, sub-goal list, materials dict
and unlocked-pack set are copied into freshly allocated cells before use and
all subsequent writes target those cells, so every previously allocated cell
(every `i < h.next`, in particular all four caller references) holds exactly
its pre-call value afterwards; the returned `materials`/`goals` references
are the fresh local cells; and the heap run returns the same cost as the
pure `simulation` on the caller's values.  (`bundles`, `rarity_weight`,
`gifts` and `staples` are only read by the source and are passed by
value.) -/
theorem c9_no_caller_mutation (env : Env) (h : Heap) (goalsRef : Nat)
    (subGoalsRef matsRef unlockedRef : Option Nat)
    (bundles : Option (List Bundle)) (coreOnly : Bool)
    (rarityWeight : Rarity → Option ℚ) (gifts staples : Option (List Card))
    (log noCrafting : Bool) (i : Nat) (hi : i < h.next) :
    ((simulationH env h goalsRef subGoalsRef matsRef unlockedRef bundles
        coreOnly rarityWeight gifts staples log noCrafting).2.listCells i =
      h.listCells i ∧
     (simulationH env h goalsRef subGoalsRef matsRef unlockedRef bundles
        coreOnly rarityWeight gifts staples log noCrafting).2.matCells i =
      h.matCells i ∧
     (simulationH env h goalsRef subGoalsRef matsRef unlockedRef bundles
        coreOnly rarityWeight gifts staples log noCrafting).2.packCells i =
      h.packCells i) ∧
    (h.next ≤ (simulationH env h goalsRef subGoalsRef matsRef unlockedRef
        bundles coreOnly rarityWeight gifts staples log noCrafting).1.2.1 ∧
     h.next ≤ (simulationH env h goalsRef subGoalsRef matsRef unlockedRef
        bundles coreOnly rarityWeight gifts staples log noCrafting).1.2.2) ∧
    (simulationH env h goalsRef subGoalsRef matsRef unlockedRef bundles
        coreOnly rarityWeight gifts staples log noCrafting).1.1 =
      (simulation env (h.listCells goalsRef) (subGoalsRef.map h.listCells)
        (matsRef.map h.matCells) (unlockedRef.map h.packCells) bundles
        coreOnly rarityWeight gifts staples log noCrafting).1 := by
  have hlink : (simulationH env h goalsRef subGoalsRef matsRef unlockedRef
      bundles coreOnly rarityWeight gifts staples log noCrafting).1.1 =
      (simulation env (h.listCells goalsRef) (subGoalsRef.map h.listCells)
        (matsRef.map h.matCells) (unlockedRef.map h.packCells) bundles
        coreOnly rarityWeight gifts staples log noCrafting).1 := by
    cases subGoalsRef <;> cases matsRef <;> cases unlockedRef <;> rfl
  have e0 : ¬ i = h.next := by omega
  have e1 : ¬ i = h.next + 1 := by omega
  have e2 : ¬ i = h.next + 1 + 1 := by omega
  have e3 : ¬ i = h.next + 1 + 1 + 1 := by omega
  refine ⟨?_, ?_, hlink⟩ <;>
    simp only [simulationH, Heap.allocList, Heap.allocMat, Heap.allocPack,
      Heap.writeList, Heap.writeMat, Heap.writePack, if_neg e0, if_neg e1,
      if_neg e2, if_neg e3]
  · refine ⟨?_, ?_, ?_⟩ <;> first | rfl | trivial
  · exact ⟨by omega, by omega⟩


/-- A one-cell caller heap for the C9 witness. -/
def heap0 : Heap := ⟨fun _ => [cardU], fun _ => [], fun _ => [], 1⟩

/-- Witness for `c9_no_caller_mutation`: the caller's goal-list cell is
untouched by a run over `env0`. -/
theorem c9_no_caller_mutation_witness :
    0 < heap0.next ∧
    (simulationH env0 heap0 0 none none none none false (fun _ => none) none
      none false false).2.listCells 0 = heap0.listCells 0 := by
  refine ⟨by decide, ?_⟩
  exact ((c9_no_caller_mutation env0 heap0 0 none none none none false
    (fun _ => none) none none false false 0 (by decide)).1).1

end MDGachaSim
